import Mathlib

/-!
Verification of the md2letter conversion pipeline (crate `convert`).

This file gives a shallow embedding, in Lean, of the Rust sources of the
repository and proves or refutes the frozen claims about it.  The embedding
follows the source code function by function:

* `src/convert/src/splitter/mod.rs`          → namespace `BlockSplitter`
* `src/convert/src/categorizer/mod.rs`       → namespace `BlockCategorizer`
* `src/convert/src/parser/text/tokenizer.rs` → namespace `Tokenizer`
* `src/convert/src/parser/...`               → the per-kind block parsers
* `src/convert/src/transformer/...`          → namespace `Transformer` and
  `LetterScriptTree`
* `src/convert/src/lib.rs`                   → `convert`

Modelling conventions, used consistently below:

* Rust `String` block sources are modelled as `List Char` (Rust's
  `chars()` iteration); byte indexing coincides with char indexing on the
  ASCII inputs all theorems use, and the few byte-based slices in the
  source are noted where they are translated.
* A Rust panic (an `unwrap()` on `None`, an out-of-bounds slice, an
  `unreachable!()`) is modelled by `Option.none` in the returned value;
  fallible parsing is `Except ParseError`.
* Source spans are tracked where observable behaviour depends on them
  (the inline tokenizer, whose error tokens carry positions) and omitted
  where they are inert metadata that no claim mentions (the block
  splitter's span fields, which do not influence the emitted block
  sources, and the span fields stored inside tree nodes, which the
  serialiser never reads).
* Loops that walk the input are translated either structurally (one
  character consumed per step) or with an explicit fuel that is an
  evident upper bound on the number of iterations; all fuelled functions
  are only evaluated on concrete inputs in the theorems below.
-/

namespace Md2Letter

/-- Source position, 1-based line/column (util/source_position.rs). -/
structure SourcePosition where
  line : Nat
  column : Nat
deriving DecidableEq, Repr

/-- The `zero()` constructor of the source: position (1, 1). -/
def SourcePosition.zero : SourcePosition := ⟨1, 1⟩

/-- Half-open source span (util/mod.rs `SourceSpan`); the `end` field is
named `stop` because `end` is a Lean keyword. -/
structure SourceSpan where
  start : SourcePosition
  stop : SourcePosition
deriving DecidableEq, Repr

/-- Rust `char::is_whitespace` restricted to the ASCII range, which is all
the inputs below contain (the Unicode white-space code points above 0x7f
are not modelled). -/
def isRustWs (c : Char) : Bool :=
  c == ' ' || c == '\t' || c == '\n' || c == '\r' || c == '\x0b' || c == '\x0c'

/-- Rust `str::trim` on a char list: drop whitespace from both ends. -/
def trimChars (l : List Char) : List Char :=
  ((l.dropWhile isRustWs).reverse.dropWhile isRustWs).reverse

/-- Rust `str::trim_start`. -/
def trimStartChars (l : List Char) : List Char :=
  l.dropWhile isRustWs

/-- Rust `str::trim_end`. -/
def trimEndChars (l : List Char) : List Char :=
  (l.reverse.dropWhile isRustWs).reverse

/-- Split a char list at every occurrence of `sep` (the separator is
dropped; `n` separators give `n + 1` parts), as Rust `str::split`. -/
def splitOnChar (sep : Char) : List Char → List (List Char)
  | [] => [[]]
  | c :: rest =>
    let r := splitOnChar sep rest
    if c = sep then [] :: r
    else
      match r with
      | [] => [[c]]
      | h :: t => (c :: h) :: t

/-- Rust `str::lines` on a char list: split on `'\n'`, without a trailing
empty line when the text ends in `'\n'` (`'\r'` handling is irrelevant
here because the splitter has already removed every `'\r'`). -/
def rustLines (l : List Char) : List (List Char) :=
  match l with
  | [] => []
  | _ =>
    let parts := splitOnChar '\n' l
    if l.getLast? = some '\n' then parts.dropLast else parts

/-! ## Block splitter (splitter/mod.rs)

`BlockSplitter::next` reads characters one at a time (dropping `'\r'`,
exactly as `read_next_char` does), counts consecutive line terminators,
and emits a block either at a boundary (two or more newlines followed by
a non-whitespace character, outside a fenced code region — the boundary
character is pushed back) or at end of input.  The boundary branch trims
the buffer; the end-of-input branch returns the buffer as is.
-/

namespace BlockSplitter

/-- The backtick bookkeeping of the splitter loop (lines 117–131 of
splitter/mod.rs), as a function of the current character, of whether the
buffer is still empty, and of the counter/flag pair. -/
def backtickStep (c : Char) (bufferEmpty : Bool) (btCount : Nat)
    (inCode : Bool) : Nat × Bool :=
  if c == '`' then
    if bufferEmpty || decide (0 < btCount) || inCode then
      if btCount + 1 = 3 then (0, !inCode) else (btCount + 1, inCode)
    else (btCount, inCode)
  else (0, inCode)

/-- One call of `BlockSplitter::next` (the `loop` in splitter/mod.rs,
lines 82–139), as a function of the remaining input and of the local
state of the loop: the text buffer, the newline counter, the consecutive
backtick counter and the in-code-block flag.  Returns `none` at end of
input with an empty buffer, otherwise the emitted block source together
with the input that remains for the next call (the push-back of the
boundary character is modelled by returning it at the head of the
remaining input). -/
def nextLoop : List Char → List Char → Nat → Nat → Bool →
    Option (List Char × List Char)
  | [], buffer, _, _, _ =>
    if buffer.isEmpty then none else some (buffer, [])
  | c :: rest, buffer, newlineCount, btCount, inCode =>
    if c = '\r' then
      -- read_next_char silently skips carriage returns
      nextLoop rest buffer newlineCount btCount inCode
    else if c = '\n' then
      nextLoop rest (buffer ++ [c]) (newlineCount + 1) btCount inCode
    else if c = ' ' ∨ c = '\t' then
      -- do not reset the newline count for whitespace chars
      nextLoop rest (buffer ++ [c]) newlineCount btCount inCode
    else if 2 ≤ newlineCount ∧ inCode = false then
      -- block boundary: push the character back, emit the trimmed buffer
      some (trimChars buffer, c :: rest)
    else
      let p := backtickStep c buffer.isEmpty btCount inCode
      nextLoop rest (buffer ++ [c]) 0 p.1 p.2

/-- The full iterator: repeatedly call `next` and collect the emitted
block sources (`splitter.into_iter()` in lib.rs).  Fuelled: every
emitted block except the last consumes at least two input characters
(the two line terminators of its boundary) and the last consumes the
rest, so `chars.length + 1` blocks can never be exceeded and
`splitBlocksAux` with that fuel is the whole stream. -/
def splitBlocksAux : Nat → List Char → List (List Char)
  | 0, _ => []
  | fuel + 1, chars =>
    match nextLoop chars [] 0 0 false with
    | none => []
    | some (b, rem) => b :: splitBlocksAux fuel rem

def splitBlocks (chars : List Char) : List (List Char) :=
  splitBlocksAux (chars.length + 1) chars

end BlockSplitter

/-! ## Block categorizer (categorizer/mod.rs) -/

/-- The nine block kinds (categorizer/block.rs). -/
inductive BlockKind where
  | Text | Heading | List | Table | Image | Quote | Code | Function
  | HorizontalRule
deriving DecidableEq, Repr

namespace BlockCategorizer

/-- Number of characters consumed when scanning for the first occurrence
of `t`, counting the matched character itself; all of `l` when `t` is
absent.  Models the Rust pattern
`for c in it { counter += 1; if c == t { break } }`. -/
def scanPast (t : Char) : List Char → Nat
  | [] => 0
  | c :: rest => 1 + (if c = t then 0 else scanPast t rest)

/-- `BlockCategorizer::is_code_block`: at least three leading backticks. -/
def is_code_block (src : List Char) : Bool :=
  3 ≤ (src.takeWhile (· == '`')).length

/-- `BlockCategorizer::is_ordered_list`. -/
def is_ordered_list (src : List Char) : Bool :=
  let nextCharIsPeriod := src.get? 1 == some '.'
  let nextCharIsSpace := nextCharIsPeriod && (src.get? 2 == some ' ')
  nextCharIsPeriod && nextCharIsSpace

/-- `BlockCategorizer::is_unordered_list` (the char parameter is unused
in the source as well). -/
def is_unordered_list (src : List Char) (_char : Char) : Bool :=
  src.get? 1 == some ' '

/-- `BlockCategorizer::is_horizontal_rule`. -/
def is_horizontal_rule (src : List Char) (char : Char) : Bool :=
  let counter := (src.takeWhile (· == char)).length
  let isPossible := 3 ≤ counter
  if isPossible then
    (src.drop counter).all fun c => c == ' ' || c == '\t'
  else
    false

/-- `BlockCategorizer::is_image`. -/
def is_image (src : List Char) : Bool :=
  match src.get? 1 with
  | none => false
  | some c =>
    if c ≠ '[' then false
    else
      -- find closing square bracket, then opening and closing parentheses
      let counter := 2 + scanPast ']' (src.drop 2)
      let counter := counter + scanPast '(' (src.drop counter)
      let mayBeImageBlock := (src.drop counter).contains ')'
      let counter := counter + scanPast ')' (src.drop counter)
      if (src.drop counter).all (fun c => c == ' ' || c == '\t' || c == '\n') then
        mayBeImageBlock
      else
        false

/-- The name-scanning loop of `BlockCategorizer::is_function_block`;
returns `none` for the early `return false` paths, otherwise the number
of consumed characters together with the `anticipate_params` flag. -/
def functionNameLoop : List Char → Nat → Bool → Option (Nat × Bool)
  | [], counter, _ => some (counter, false)
  | c :: rest, counter, hasName =>
    if c = '(' then
      if hasName then some (counter + 1, true) else none
    else if c = '\t' ∨ c = '#' then none
    else if c = ' ' then
      if hasName then some (counter + 1, false) else none
    else
      functionNameLoop rest (counter + 1) true

/-- `BlockCategorizer::is_function_block`. -/
def is_function_block (src : List Char) : Bool :=
  match functionNameLoop (src.drop 1) 1 false with
  | none => false
  | some (counter, anticipateParams) =>
    let paramsAreValid :=
      !anticipateParams || (src.drop counter).contains ')'
    let counter :=
      if anticipateParams then counter + scanPast ')' (src.drop counter)
      else counter
    if !paramsAreValid then false
    else (src.drop counter).all fun c => c == ' ' || c == '\t' || c == '\n'

/-- The loop of `BlockCategorizer::is_heading`: after the leading `#`,
further `#`s may follow and a space must come before anything else. -/
def headingLoop : List Char → Bool
  | [] => false
  | c :: rest =>
    if c = ' ' then true
    else if c = '#' then headingLoop rest
    else false

/-- `BlockCategorizer::is_heading`. -/
def is_heading (src : List Char) : Bool :=
  headingLoop (src.drop 1)

/-- A categorised block: kind plus untouched source
(categorizer/block.rs; the span is inert and not modelled). -/
structure CategorizedBlock where
  kind : BlockKind
  src : List Char
deriving DecidableEq, Repr

/-- `BlockCategorizer::categorize`.  The source reads
`src.chars().next().unwrap()`: on an empty block source this `unwrap`
panics, which is modelled by `none`. -/
def categorize (src : List Char) : Option CategorizedBlock :=
  match src.head? with
  | none => none
  | some firstChar =>
    let kind :=
      if firstChar = '#' then
        if is_heading src then .Heading
        else if is_function_block src then .Function
        else .Text
      else if firstChar = '!' then
        if is_image src then .Image else .Text
      else if '1' ≤ firstChar ∧ firstChar ≤ '9' then
        -- the source matches the digit characters '1' through '9'
        if is_ordered_list src then .List else .Text
      else if firstChar = '-' ∨ firstChar = '+' ∨ firstChar = '*' then
        if is_horizontal_rule src firstChar then .HorizontalRule
        else if is_unordered_list src firstChar then .List
        else .Text
      else if firstChar = '_' then
        if is_horizontal_rule src firstChar then .HorizontalRule else .Text
      else if firstChar = '>' then .Quote
      else if firstChar = '|' then .Table
      else if firstChar = '`' then
        if is_code_block src then .Code else .Text
      else .Text
    some ⟨kind, src⟩

end BlockCategorizer

/-! ## Inline tokenizer (parser/text/tokenizer.rs)

The tokenizer walks one block source by character offset, producing the
flat inline token stream.  Its state is translated field by field; the
speculative-read history (bounded at 100 entries) and the queue of
pending closing/nested formatting tokens are modelled exactly.  Rust's
`HashMap<String, String>` of function parameters is modelled as an
association list with insert-or-replace semantics (`hashMapInsert`);
only its key/value contents are ever compared below.
-/

/-- Rust `str::trim` producing a `String`. -/
def trimString (s : String) : String := ⟨trimChars s.data⟩

/-- Insert-or-replace on an association list, modelling
`HashMap::insert` (last write wins for a repeated key). -/
def hashMapInsert (m : List (String × String)) (k v : String) :
    List (String × String) :=
  if m.any (fun p => p.1 == k) then
    m.map fun p => if p.1 == k then (k, v) else p
  else
    m ++ [(k, v)]

namespace Tokenizer

/-- Inline token kinds (parser/text/token.rs). -/
inductive TokenKind where
  | Error (message : String) (sourcePosition : SourcePosition)
  | Text (s : String)
  | Link (label target : String)
  | Image (label src : String)
  | Function (name : String) (parameters : List (String × String))
  | BoldStart | BoldEnd | ItalicStart | ItalicEnd | CodeStart | CodeEnd
deriving DecidableEq, Repr

/-- Token plus span (parser/text/token.rs). -/
structure Token where
  kind : TokenKind
  span : SourceSpan
deriving DecidableEq, Repr

/-- The entries of the speculative-read history
(`SourcePositionUpdate` in tokenizer.rs). -/
inductive SourcePositionUpdate where
  | NewLine (oldColumn : Nat)
  | Column
  | Ignore
deriving DecidableEq, Repr

/-- A token already resolved by `find_formatting_pair` and waiting for
the scan to reach its offset (`FutureToken` in tokenizer.rs). -/
structure FutureToken where
  tokenKind : TokenKind
  offset : Nat
deriving DecidableEq, Repr

/-- `MAX_SOURCE_POSITION_UPDATE_HISTORY_SIZE`. -/
def maxHistorySize : Nat := 100

/-- The tokenizer state (struct `Tokenizer`). -/
structure State where
  src : List Char
  offset : Nat
  offsetSourcePosition : SourcePosition
  sourcePositionUpdateHistory : List SourcePositionUpdate
  isInCodeEmphasis : Bool
  nextTokenIsCodeEmphasis : Bool
  futureClosingFormattingTokens : List FutureToken
  isInitialized : Bool
deriving Repr

/-- `Tokenizer::new`. -/
def State.new (src : List Char) (span : SourceSpan) : State :=
  { src := src
    offset := 0
    offsetSourcePosition := span.start
    sourcePositionUpdateHistory := []
    isInCodeEmphasis := false
    nextTokenIsCodeEmphasis := false
    futureClosingFormattingTokens := []
    isInitialized := false }

/-- `Tokenizer::read_at`: `self.src.chars().nth(offset)`. -/
def State.readAt (t : State) (offset : Nat) : Option Char :=
  t.src.get? offset

/-- `Tokenizer::look_ahead`. -/
def State.lookAhead (t : State) (count : Nat) : Option Char :=
  t.readAt (t.offset + count)

/-- The body of `Tokenizer::read_next` after the initialization step; the
recursion skips carriage returns (each one logged as an `Ignore` history
entry before the offset advances).  The fuel is an upper bound on the
run of consecutive `'\r'` characters, so `src.length + 1` always
suffices. -/
def State.readNextLoop : Nat → State → Option Char × State
  | 0, t => (none, t)
  | fuel + 1, t =>
    match t.readAt t.offset with
    | none => (none, t)
    | some c =>
      if c = '\r' then
        let t := { t with sourcePositionUpdateHistory :=
          .Ignore :: t.sourcePositionUpdateHistory }
        State.readNextLoop fuel { t with offset := t.offset + 1 }
      else
        let t :=
          if c = '\n' then
            { t with
              sourcePositionUpdateHistory :=
                .NewLine t.offsetSourcePosition.column ::
                  t.sourcePositionUpdateHistory
              offsetSourcePosition :=
                ⟨t.offsetSourcePosition.line + 1, 1⟩ }
          else
            { t with
              sourcePositionUpdateHistory :=
                .Column :: t.sourcePositionUpdateHistory
              offsetSourcePosition :=
                ⟨t.offsetSourcePosition.line,
                 t.offsetSourcePosition.column + 1⟩ }
        let t :=
          if maxHistorySize < t.sourcePositionUpdateHistory.length then
            { t with sourcePositionUpdateHistory :=
                t.sourcePositionUpdateHistory.dropLast }
          else t
        (some c, t)

/-- `Tokenizer::read_next`. -/
def State.readNext (t : State) : Option Char × State :=
  let t :=
    if ¬t.isInitialized then { t with isInitialized := true }
    else { t with offset := t.offset + 1 }
  State.readNextLoop (t.src.length + 1) t

/-- `Tokenizer::mark_char_as_unconsumed`; `none` models the panic on an
empty history.  (The `offset -= 1` uses truncated subtraction; the
offset is always positive at the call sites reached below.) -/
def State.markCharAsUnconsumed (t : State) : Option State :=
  let t := { t with offset := t.offset - 1 }
  match t.sourcePositionUpdateHistory with
  | [] => none
  | u :: rest =>
    let t := { t with sourcePositionUpdateHistory := rest }
    match u with
    | .NewLine oldColumn =>
      some { t with offsetSourcePosition :=
        ⟨t.offsetSourcePosition.line - 1, oldColumn⟩ }
    | .Column =>
      some { t with offsetSourcePosition :=
        ⟨t.offsetSourcePosition.line, t.offsetSourcePosition.column - 1⟩ }
    | .Ignore => some t

/-- `Tokenizer::ignore_next_chars`. -/
def State.ignoreNextChars (t : State) (count : Nat) : State :=
  match count with
  | 0 => t
  | n + 1 => State.ignoreNextChars (t.readNext).2 n

/-- The worker of `find_next_char_matching`: walk the characters after
`look_ahead(count)` with the running count. -/
def findNextCharMatchingAux (c : Char) : List Char → Nat → Option Nat
  | [], _ => none
  | x :: rest, count =>
    if x = c then some count else findNextCharMatchingAux c rest (count + 1)

/-- `Tokenizer::find_next_char_matching` (a pure read; the `&mut` in the
source never mutates). -/
def State.findNextCharMatching (t : State) (c : Char) (startAt : Nat) :
    Option Nat :=
  findNextCharMatchingAux c (t.src.drop (t.offset + startAt + 1)) startAt

/-- The `Precedence` enum local to `find_formatting_pair`. -/
inductive Precedence where
  | Bold | Italic | None
deriving DecidableEq, Repr

/-- The scanning loop of `Tokenizer::find_formatting_pair` (lines
188–371 of tokenizer.rs).  All state mutated by the loop is passed
explicitly: the count into the lookahead, the escaped-star flag, the
in-code flag, the is-italic/is-bold flags, the precedence, and the
result accumulator.  The count grows by one or two at every step, so a
fuel of `src.length + 2` always covers the scan. -/
def findPairLoop (t : State) :
    Nat → Nat → Bool → Bool → Bool → Bool → Precedence →
    List FutureToken → Option (List FutureToken)
  | 0, _, _, _, _, _, _, _ => none
  | fuel + 1, count, ignoreNextStar, inCode, isItalic, isBold, prec,
      result =>
    match t.lookAhead (count + 1) with
    | none => none
    | some nextChar =>
      if inCode then
        if nextChar = '`' then
          findPairLoop t fuel (count + 1) ignoreNextStar false isItalic
            isBold prec result
        else
          findPairLoop t fuel (count + 1) ignoreNextStar true isItalic
            isBold prec result
      else if nextChar = '\\' then
        findPairLoop t fuel (count + 1) true inCode isItalic isBold prec
          result
      else if nextChar = '`' then
        -- a shadowed `count` receives the match position; only the
        -- in-code flag survives the branch
        let inCode' := (t.findNextCharMatching '`' (count + 1)).isSome
        findPairLoop t fuel (count + 1) ignoreNextStar inCode' isItalic
          isBold prec result
      else if nextChar = '*' then
        if ignoreNextStar then
          findPairLoop t fuel (count + 1) false inCode isItalic isBold
            prec result
        else if isItalic ∧ isBold then
          -- cannot open more formatting: this must be a closing star run
          let nextChar1 := t.lookAhead (count + 2)
          let nextChar2 := t.lookAhead (count + 3)
          if nextChar1 = some '*' then
            let count := count + 1
            if nextChar2 = some '*' then
              match prec with
              | .Bold =>
                some (result ++
                  [⟨.ItalicEnd, t.offset + count⟩,
                   ⟨.BoldEnd, t.offset + count + 1⟩])
              | .Italic =>
                some (result ++
                  [⟨.BoldEnd, t.offset + count + 1⟩,
                   ⟨.ItalicEnd, t.offset + count + 2⟩])
              | .None =>
                some (⟨.ItalicStart, t.offset⟩ ::
                  (result ++ [⟨.BoldEnd, t.offset + count + 1⟩,
                              ⟨.ItalicEnd, t.offset + count + 2⟩]))
            else
              -- a `**` run: the bold pair closes here, scanning goes on
              match prec with
              | .None =>
                findPairLoop t fuel (count + 1) ignoreNextStar inCode
                  true false .Italic
                  (⟨.ItalicStart, t.offset⟩ :: ⟨.BoldStart, t.offset + 2⟩ ::
                    (result ++ [⟨.BoldEnd, t.offset + count⟩]))
              | _ =>
                findPairLoop t fuel (count + 1) ignoreNextStar inCode
                  true false prec
                  (result ++ [⟨.BoldEnd, t.offset + count⟩])
          else
            -- a single star: the italic pair closes, scanning goes on
            match prec with
            | .None =>
              findPairLoop t fuel (count + 1) ignoreNextStar inCode
                false true .Bold
                (⟨.BoldStart, t.offset⟩ :: ⟨.ItalicStart, t.offset + 2⟩ ::
                  (result ++ [⟨.ItalicEnd, t.offset + count + 1⟩]))
            | _ =>
              findPairLoop t fuel (count + 1) ignoreNextStar inCode
                false true prec
                (result ++ [⟨.ItalicEnd, t.offset + count + 1⟩])
        else if isItalic then
          -- either the italic closing star or a nested bold opening
          let isBoldOpening := t.lookAhead (count + 2) = some '*'
          if isBoldOpening then
            let count := count + 1
            findPairLoop t fuel (count + 1) ignoreNextStar inCode true
              true prec (result ++ [⟨.BoldStart, t.offset + count + 1⟩])
          else
            some (result ++ [⟨.ItalicEnd, t.offset + count + 1⟩])
        else if isBold then
          -- either the bold closing run or a nested italic opening
          let isItalicOpening :=
            match t.lookAhead (count + 2) with
            | some charAfterNext => charAfterNext != '*'
            | none => true
          if isItalicOpening then
            findPairLoop t fuel (count + 1) ignoreNextStar inCode true
              true prec (result ++ [⟨.ItalicStart, t.offset + count + 1⟩])
          else
            some (result ++ [⟨.BoldEnd, t.offset + count + 1⟩])
        else
          findPairLoop t fuel (count + 1) ignoreNextStar inCode isItalic
            isBold prec result
      else
        findPairLoop t fuel (count + 1) false inCode isItalic isBold prec
          result

/-- `Tokenizer::find_formatting_pair` (lines 141–374): decide whether
the current star run opens italic, bold or both, then scan forward for
the matching close, recording any nested pairs met along the way.  A
pure read of the state. -/
def State.findFormattingPair (t : State) : Option (List FutureToken) :=
  let nextChar1 := t.lookAhead 1
  let nextChar2 := t.lookAhead 2
  if nextChar1 = none ∨ nextChar2 = none then none
  else
    let isBold := nextChar1 = some '*'
    let isItalic :=
      if isBold then
        match nextChar2 with
        | some lastChar => lastChar = '*'
        | none => true
      else true
    if isBold ∧ isItalic then
      findPairLoop t (t.src.length + 2) 2 false false true true .None []
    else if isBold then
      findPairLoop t (t.src.length + 2) 2 false false false true .Bold
        [⟨.BoldStart, t.offset⟩]
    else
      -- is_italic (the remaining case; the source's `unreachable!()`
      -- arm cannot trigger because is_italic starts true)
      findPairLoop t (t.src.length + 2) 2 false false true false .Italic
        [⟨.ItalicStart, t.offset⟩]

/-- Result of one `Tokenizer::next` call: panic, end of stream, or a
token with the successor state. -/
inductive NextResult where
  | panicked
  | done
  | tok (token : Token) (t : State)
deriving Repr

/-- The label-or-target scanning loop shared by the image and link
branches of `Tokenizer::next`: walk `look_ahead(count)` until the
terminator (exclusive) or end of input, returning the collected string
and the final count. -/
def collectUntil (t : State) (terminator : Char) :
    Nat → Nat → String → String × Nat
  | 0, count, acc => (acc, count)
  | fuel + 1, count, acc =>
    match t.lookAhead count with
    | none => (acc, count)
    | some c =>
      if c = terminator then (acc, count)
      else collectUntil t terminator fuel (count + 1) (acc.push c)

/-- The parameter-collection loop of the function branch of
`Tokenizer::next` (lines 465–508): comma-separated `key: value` pairs,
individually trimmed, committed on `,` (when the value is non-blank)
and on `)` (when the key is non-blank); the scan stops at `)` or end of
input. -/
def functionParamsLoop (t : State) :
    Nat → Nat → List (String × String) → String → String → Bool →
    List (String × String) × Nat
  | 0, count, params, _, _, _ => (params, count)
  | fuel + 1, count, params, parameterName, parameterValue, isInArgName =>
    match t.lookAhead count with
    | none => (params, count)
    | some c =>
      if c = ')' then
        (if trimString parameterName ≠ "" then
          hashMapInsert params (trimString parameterName)
            (trimString parameterValue)
        else params, count)
      else if c = ',' then
        functionParamsLoop t fuel (count + 1)
          (if trimString parameterValue ≠ "" then
            hashMapInsert params (trimString parameterName)
              (trimString parameterValue)
          else params) "" "" true
      else if c = ':' then
        if isInArgName then
          functionParamsLoop t fuel (count + 1) params parameterName
            parameterValue false
        else
          functionParamsLoop t fuel (count + 1) params parameterName
            (parameterValue.push ':') isInArgName
      else
        if isInArgName then
          functionParamsLoop t fuel (count + 1) params
            (parameterName.push c) parameterValue isInArgName
        else
          functionParamsLoop t fuel (count + 1) params parameterName
            (parameterValue.push c) isInArgName

/-- The main loop of `Tokenizer::next` (lines 380–817).  `startPosition`
and the text buffer and escape flag are the per-call locals; each
iteration consumes at least one source character, so a fuel of
`src.length + 2` covers any single call. -/
def nextLoop (t₀ : State) :
    Nat → State → SourcePosition → String → Bool → NextResult
  | 0, _, _, _, _ => .panicked
  | fuel + 1, t, startPosition, textBuffer, treatNextSpecialCharAsText =>
    match t.readNext with
    | (none, t) =>
      if textBuffer.isEmpty then .done
      else .tok ⟨.Text textBuffer, ⟨startPosition, t.offsetSourcePosition⟩⟩ t
    | (some c, t) =>
      if treatNextSpecialCharAsText then
        nextLoop t₀ fuel t startPosition (textBuffer.push c) false
      else if t.isInCodeEmphasis then
        if t.nextTokenIsCodeEmphasis then
          let t := { t with nextTokenIsCodeEmphasis := false,
                            isInCodeEmphasis := false }
          .tok ⟨.CodeEnd, ⟨startPosition, t.offsetSourcePosition⟩⟩ t
        else if c = '`' then
          let t := { t with nextTokenIsCodeEmphasis := true }
          match t.markCharAsUnconsumed with
          | none => .panicked
          | some t =>
            .tok ⟨.Text textBuffer, ⟨startPosition, t.offsetSourcePosition⟩⟩ t
        else
          nextLoop t₀ fuel t startPosition (textBuffer.push c) false
      else if c = '\\' then
        nextLoop t₀ fuel t startPosition textBuffer true
      else if c = ' ' ∨ c = '\t' then
        nextLoop t₀ fuel t startPosition (textBuffer.push ' ') false
      else if c = '\n' then
        if textBuffer.data.getLast? ≠ some ' ' then
          nextLoop t₀ fuel t startPosition (textBuffer.push ' ') false
        else
          nextLoop t₀ fuel t startPosition textBuffer false
      else if c = '#' then
        -- function token: collect the name up to `(`, then parameters
        let (functionName, count) :=
          collectUntil t '(' (t.src.length + 2) 1 ""
        if functionName.isEmpty then
          nextLoop t₀ fuel t startPosition (textBuffer.push c) false
        else
          let count := count + 1
          let (parameters, count) :=
            functionParamsLoop t (t.src.length + 2) count [] "" "" true
          if ¬textBuffer.isEmpty then
            match t.markCharAsUnconsumed with
            | none => .panicked
            | some t =>
              .tok ⟨.Text textBuffer,
                    ⟨startPosition, t.offsetSourcePosition⟩⟩ t
          else
            let t := t.ignoreNextChars count
            .tok ⟨.Function functionName parameters,
                  ⟨startPosition, t.offsetSourcePosition⟩⟩ t
      else if c = '!' then
        let mayBeImage := t.lookAhead 1 = some '['
        if ¬mayBeImage then
          nextLoop t₀ fuel t startPosition (textBuffer.push c) false
        else
          let (label, count) := collectUntil t ']' (t.src.length + 2) 2 ""
          if label.isEmpty then
            nextLoop t₀ fuel t startPosition (textBuffer.push c) false
          else
            let isOpeningParenthesis := t.lookAhead (count + 1) = some '('
            if ¬isOpeningParenthesis then
              nextLoop t₀ fuel t startPosition (textBuffer.push c) false
            else
              let count := count + 2
              let (src, count) :=
                collectUntil t ')' (t.src.length + 2) count ""
              if src.isEmpty then
                nextLoop t₀ fuel t startPosition (textBuffer.push c) false
              else if ¬textBuffer.isEmpty then
                match t.markCharAsUnconsumed with
                | none => .panicked
                | some t =>
                  .tok ⟨.Text textBuffer,
                        ⟨startPosition, t.offsetSourcePosition⟩⟩ t
              else
                let t := t.ignoreNextChars count
                .tok ⟨.Image label src,
                      ⟨startPosition, t.offsetSourcePosition⟩⟩ t
      else if c = '[' then
        let (label, count) := collectUntil t ']' (t.src.length + 2) 1 ""
        if label.isEmpty then
          nextLoop t₀ fuel t startPosition (textBuffer.push c) false
        else
          let isOpeningParenthesis := t.lookAhead (count + 1) = some '('
          if ¬isOpeningParenthesis then
            nextLoop t₀ fuel t startPosition (textBuffer.push c) false
          else
            let count := count + 2
            let (target, count) :=
              collectUntil t ')' (t.src.length + 2) count ""
            if target.isEmpty then
              nextLoop t₀ fuel t startPosition (textBuffer.push c) false
            else if ¬textBuffer.isEmpty then
              match t.markCharAsUnconsumed with
              | none => .panicked
              | some t =>
                .tok ⟨.Text textBuffer,
                      ⟨startPosition, t.offsetSourcePosition⟩⟩ t
            else
              let t := t.ignoreNextChars count
              .tok ⟨.Link label target,
                    ⟨startPosition, t.offsetSourcePosition⟩⟩ t
      else if c = '*' then
        let offset := t.offset
        match t.futureClosingFormattingTokens.find?
            (fun token => token.offset == offset) with
        | some ft =>
          if ¬textBuffer.isEmpty then
            match t.markCharAsUnconsumed with
            | none => .panicked
            | some t =>
              .tok ⟨.Text textBuffer,
                    ⟨startPosition, t.offsetSourcePosition⟩⟩ t
          else
            let remaining := t.futureClosingFormattingTokens.filter
              fun token => token.offset != offset
            let t := { t with futureClosingFormattingTokens := remaining }
            let isBold := ft.tokenKind = .BoldEnd
            let t := if isBold then t.ignoreNextChars 1 else t
            .tok ⟨ft.tokenKind, ⟨startPosition, t.offsetSourcePosition⟩⟩ t
        | none =>
          match t.findFormattingPair with
          | some futureTokens =>
            if ¬textBuffer.isEmpty then
              match t.markCharAsUnconsumed with
              | none => .panicked
              | some t =>
                .tok ⟨.Text textBuffer,
                      ⟨startPosition, t.offsetSourcePosition⟩⟩ t
            else
              match futureTokens with
              | [] => .panicked  -- `future_tokens[0]` on an empty vec
              | ft0 :: restTokens =>
                let isBold := ft0.tokenKind = .BoldStart
                let queued := t.futureClosingFormattingTokens ++ restTokens
                let t := { t with futureClosingFormattingTokens := queued }
                if isBold then
                  let t := t.ignoreNextChars 1
                  .tok ⟨.BoldStart,
                        ⟨startPosition, t.offsetSourcePosition⟩⟩ t
                else
                  .tok ⟨.ItalicStart,
                        ⟨startPosition, t.offsetSourcePosition⟩⟩ t
          | none =>
            nextLoop t₀ fuel t startPosition (textBuffer.push c) false
      else if c = '`' then
        if ¬textBuffer.isEmpty then
          match t.markCharAsUnconsumed with
          | none => .panicked
          | some t =>
            .tok ⟨.Text textBuffer,
                  ⟨startPosition, t.offsetSourcePosition⟩⟩ t
        else
          match t.findNextCharMatching '`' 0 with
          | none =>
            .tok ⟨.Error "Could not find closing backtick"
                    t.offsetSourcePosition,
                  ⟨startPosition, t.offsetSourcePosition⟩⟩ t
          | some _ =>
            let t := { t with isInCodeEmphasis := true }
            .tok ⟨.CodeStart, ⟨startPosition, t.offsetSourcePosition⟩⟩ t
      else if c = '\r' then
        -- unreachable: read_next already skips carriage returns
        nextLoop t₀ fuel t startPosition textBuffer false
      else
        nextLoop t₀ fuel t startPosition (textBuffer.push c) false

/-- `Tokenizer::next` (one `Iterator::next` call). -/
def State.next (t : State) : NextResult :=
  nextLoop t (t.src.length + 2) t t.offsetSourcePosition "" false

/-- Drive the iterator to exhaustion, collecting the tokens.  Any two
consecutive `next` calls consume at least one character, so the fuel
`2 * src.length + 8` is never exhausted on the inputs used below;
`none` reports a modelled panic (or fuel exhaustion). -/
def tokenizeLoop : Nat → State → List Token → Option (List Token)
  | 0, _, _ => none
  | fuel + 1, t, acc =>
    match t.next with
    | .panicked => none
    | .done => some acc.reverse
    | .tok token t' => tokenizeLoop fuel t' (token :: acc)

/-- The token stream of one block source, as the text parser consumes it
(`for token in self.tokenizer`). -/
def tokenize (src : List Char) (span : SourceSpan) :
    Option (List Token) :=
  tokenizeLoop (2 * src.length + 8) (State.new src span) []

end Tokenizer

/-! ## Text tree and text parser (parser/block/text/tree, parser/text/mod.rs)

Every tree of the pipeline is an arena keyed by ids that a monotonic
generator issues from 0 (util/id_generator.rs); the arena is modelled as
a list whose indices are the ids, so `register_node` appends the new
node and adds its id to the parent's child list.  The parent lookup
`self.nodes.get_mut(&parent_id).unwrap()` panics when the parent id is
absent, hence the `Option`.
-/

/-- Parse error (parser/result.rs). -/
structure ParseError where
  message : String
  sourcePosition : SourcePosition
deriving DecidableEq, Repr

/-- Text node kinds (parser/block/text/tree/node.rs). -/
inductive TextNodeKind where
  | Root
  | Text (src : String)
  | Bold | Italic | Code
  | Link (target : String)
  | Image (src : String)
  | Function (name : String) (parameters : List (String × String))
deriving DecidableEq, Repr

/-- Text node: id, kind, ordered children, span. -/
structure TextNode where
  id : Nat
  kind : TextNodeKind
  children : List Nat
  span : SourceSpan
deriving DecidableEq, Repr

/-- Text tree arena; the root has id 0. -/
structure TextTree where
  nodes : List TextNode
deriving DecidableEq, Repr

/-- `TextTree::new`: a lone root node. -/
def TextTree.new (span : SourceSpan) : TextTree :=
  ⟨[⟨0, .Root, [], span⟩]⟩

/-- `TextTree::get_node` without the unwrap. -/
def TextTree.getNode? (tree : TextTree) (id : Nat) : Option TextNode :=
  tree.nodes.get? id

/-- `TextTree::register_node`: append a node under `parentId`; `none`
models the panic when the parent id is not in the arena. -/
def TextTree.registerNode (tree : TextTree) (parentId : Nat)
    (kind : TextNodeKind) (span : SourceSpan) :
    Option (TextTree × Nat) :=
  let id := tree.nodes.length
  if parentId < tree.nodes.length then
    let nodes := tree.nodes ++ [⟨id, kind, [], span⟩]
    let nodes := nodes.map fun n =>
      if n.id = parentId then { n with children := n.children ++ [id] }
      else n
    some (⟨nodes⟩, id)
  else none

namespace TextParser

open Tokenizer

/-- The token-folding loop of `TextParser::parse`: tokens are pulled
lazily from the tokenizer state; `Start` tokens push a node id onto the
open-parent stack (modelled Vec-style: the last element is the top) and
`End` tokens pop it.  `none` models a panic (of the tokenizer or of the
`last().unwrap()` on an emptied stack); an `Error` token aborts with a
`ParseError` carrying the token's position. -/
def parseLoop : Nat → Tokenizer.State → TextTree → List Nat →
    Option (Except ParseError TextTree)
  | 0, _, _, _ => none
  | fuel + 1, tstate, tree, stack =>
    match tstate.next with
    | .panicked => none
    | .done => some (.ok tree)
    | .tok token tstate =>
      match stack.getLast? with
      | none => none
      | some parentNodeId =>
        let span := token.span
        match token.kind with
        | .Error message sourcePosition =>
          some (.error ⟨message, sourcePosition⟩)
        | .Text s =>
          match tree.registerNode parentNodeId (.Text s) span with
          | none => none
          | some (tree, _) => parseLoop fuel tstate tree stack
        | .Link label target =>
          match tree.registerNode parentNodeId (.Link target) span with
          | none => none
          | some (tree, nodeId) =>
            match tree.registerNode nodeId (.Text label) span with
            | none => none
            | some (tree, _) => parseLoop fuel tstate tree stack
        | .Image label src =>
          match tree.registerNode parentNodeId (.Image src) span with
          | none => none
          | some (tree, nodeId) =>
            match tree.registerNode nodeId (.Text label) span with
            | none => none
            | some (tree, _) => parseLoop fuel tstate tree stack
        | .Function name parameters =>
          match tree.registerNode parentNodeId
              (.Function name parameters) span with
          | none => none
          | some (tree, _) => parseLoop fuel tstate tree stack
        | .BoldStart =>
          match tree.registerNode parentNodeId .Bold span with
          | none => none
          | some (tree, nodeId) =>
            parseLoop fuel tstate tree (stack ++ [nodeId])
        | .ItalicStart =>
          match tree.registerNode parentNodeId .Italic span with
          | none => none
          | some (tree, nodeId) =>
            parseLoop fuel tstate tree (stack ++ [nodeId])
        | .CodeStart =>
          match tree.registerNode parentNodeId .Code span with
          | none => none
          | some (tree, nodeId) =>
            parseLoop fuel tstate tree (stack ++ [nodeId])
        | .BoldEnd => parseLoop fuel tstate tree stack.dropLast
        | .ItalicEnd => parseLoop fuel tstate tree stack.dropLast
        | .CodeEnd => parseLoop fuel tstate tree stack.dropLast

/-- `TextParser::parse`, returning the built text tree directly (the
source wraps it as `ParsedBlockKind::Text(TextBlock::new(tree))`, and
every caller immediately unwraps that constructor again, so the wrapper
is elided). -/
def parse (src : List Char) (span : SourceSpan) :
    Option (Except ParseError TextTree) :=
  parseLoop (2 * src.length + 8) (Tokenizer.State.new src span)
    (TextTree.new span) [0]

end TextParser

/-! ## Parsed blocks and the remaining per-kind parsers (parser/) -/

/-- List tree node style (parser/block/list/tree/node.rs). -/
inductive ListNodeStyle where
  | Ordered | Unordered
deriving DecidableEq, Repr

/-- List tree node kind. -/
inductive ListNodeKind where
  | Parent
  | Leaf (textTree : TextTree)
deriving DecidableEq, Repr

/-- List tree node. -/
structure ListNode where
  id : Nat
  kind : ListNodeKind
  children : List Nat
  style : ListNodeStyle
deriving DecidableEq, Repr

/-- List tree arena; `ListTree::new` creates the unordered Parent root
with id 0. -/
structure ListTree where
  nodes : List ListNode
deriving DecidableEq, Repr

def ListTree.new : ListTree :=
  ⟨[⟨0, .Parent, [], .Unordered⟩]⟩

def ListTree.getNode? (tree : ListTree) (id : Nat) : Option ListNode :=
  tree.nodes.get? id

/-- `ListTree::register_node`. -/
def ListTree.registerNode (tree : ListTree) (parentId : Nat)
    (kind : ListNodeKind) (style : ListNodeStyle) :
    Option (ListTree × Nat) :=
  let id := tree.nodes.length
  if parentId < tree.nodes.length then
    let nodes := tree.nodes ++ [⟨id, kind, [], style⟩]
    let nodes := nodes.map fun n =>
      if n.id = parentId then { n with children := n.children ++ [id] }
      else n
    some (⟨nodes⟩, id)
  else none

/-- Quote tree node kind (parser/block/quote/tree/node.rs). -/
inductive QuoteNodeKind where
  | Parent
  | Leaf (textTree : TextTree)
deriving DecidableEq, Repr

/-- Quote tree node. -/
structure QuoteNode where
  id : Nat
  kind : QuoteNodeKind
  children : List Nat
deriving DecidableEq, Repr

/-- Quote tree arena; the root is a Parent with id 0. -/
structure QuoteTree where
  nodes : List QuoteNode
deriving DecidableEq, Repr

def QuoteTree.new : QuoteTree :=
  ⟨[⟨0, .Parent, []⟩]⟩

def QuoteTree.getNode? (tree : QuoteTree) (id : Nat) : Option QuoteNode :=
  tree.nodes.get? id

/-- `QuoteTree::register_node`. -/
def QuoteTree.registerNode (tree : QuoteTree) (parentId : Nat)
    (kind : QuoteNodeKind) : Option (QuoteTree × Nat) :=
  let id := tree.nodes.length
  if parentId < tree.nodes.length then
    let nodes := tree.nodes ++ [⟨id, kind, []⟩]
    let nodes := nodes.map fun n =>
      if n.id = parentId then { n with children := n.children ++ [id] }
      else n
    some (⟨nodes⟩, id)
  else none

/-- Table cell: a text tree (parser/block/table/cell.rs). -/
structure TableCell where
  textTree : TextTree
deriving DecidableEq, Repr

/-- A table row is an ordered sequence of cells. -/
abbrev TableRow := List TableCell

/-- The parsed block sum type (parser/block/mod.rs together with the
per-kind payload structs; the block span is inert metadata that neither
the transformer's output nor any claim observes, so it is omitted). -/
inductive ParsedBlock where
  | Text (tree : TextTree)
  | Heading (level : Nat) (textTree : TextTree)
  | List (tree : ListTree)
  | Table (headerRow : TableRow) (rows : List TableRow)
  | Image (textTree : TextTree) (src : String)
  | Quote (tree : QuoteTree)
  | Code (language : Option String) (src : String)
  | Function (name : String) (parameters : List (String × String))
  | HorizontalRule
deriving DecidableEq, Repr

namespace HeadingParser

/-- `HeadingParser::find_heading_level`: count the leading `#`s; the
text starts one separating character later. -/
def find_heading_level (src : List Char) : Nat × Nat :=
  let headingLevel := (src.takeWhile (· == '#')).length
  (headingLevel, headingLevel + 1)

/-- `HeadingParser::parse`.  The slice `self.src[offset..]` panics when
`offset` exceeds the length (`none`); the categoriser only routes here
sources in which a space follows the `#` run, for which the slice is in
bounds. -/
def parse (src : List Char) (span : SourceSpan) :
    Option (Except ParseError ParsedBlock) :=
  let (headingLevel, offset) := find_heading_level src
  if src.length < offset then none
  else
    match TextParser.parse (src.drop offset) span with
    | none => none
    | some (.error e) => some (.error e)
    | some (.ok textTree) =>
      some (.ok (.Heading headingLevel textTree))

end HeadingParser

namespace ListParser

/-- The indent of a list item (enum `Indent` in parser/list.rs). -/
inductive Indent where
  | Zero
  | Tab (count : Nat)
  | Space (count : Nat)
deriving DecidableEq, Repr

/-- `Indent::count`. -/
def Indent.count : Indent → Nat
  | .Zero => 0
  | .Tab n => n
  | .Space n => n

/-- Result record of `is_start_of_new_item`. -/
structure IsStartOfNewLineResult where
  is_start_of_new_item : Bool
  indent : Indent
  symbol : String
  is_ordered : Bool
deriving DecidableEq, Repr

/-- The message of the mixed-indentation error (the source uses this
exact text for both mixing directions). -/
def mixedIndentMessage : String :=
  "Mixed tab and space in list item indentation. Started indenting with tab and then encountered space."

/-- The character loop of `ListParser::is_start_of_new_item`. -/
def isStartLoop (line : List Char) (lineNumber : Nat) :
    List Char → Nat → Indent →
    Except ParseError IsStartOfNewLineResult
  | [], _, indent => .ok ⟨false, indent, "", false⟩
  | c :: rest, index, indent =>
    if c = '\t' then
      match indent with
      | .Zero => isStartLoop line lineNumber rest (index + 1) (.Tab 1)
      | .Tab n => isStartLoop line lineNumber rest (index + 1) (.Tab (n + 1))
      | .Space _ => .error ⟨mixedIndentMessage, ⟨lineNumber, 1⟩⟩
    else if c = ' ' then
      match indent with
      | .Zero => isStartLoop line lineNumber rest (index + 1) (.Space 1)
      | .Space n =>
        isStartLoop line lineNumber rest (index + 1) (.Space (n + 1))
      | .Tab _ => .error ⟨mixedIndentMessage, ⟨lineNumber, 1⟩⟩
    else
      let isValidUnorderedSymbol := c = '-' ∨ c = '*' ∨ c = '+'
      let isValidOrderedSymbol :=
        c.isDigit ∧ line.get? (index + 1) = some '.'
      let symbol : Option String :=
        if isValidUnorderedSymbol then some ⟨[c]⟩
        else if isValidOrderedSymbol then
          some ⟨(line.drop index).take 2⟩
        else none
      let isFollowedBySpace : Bool :=
        match symbol with
        | some s => line.get? (index + s.length) == some ' '
        | none => false
      .ok ⟨symbol.isSome && isFollowedBySpace, indent,
           symbol.getD "", isValidOrderedSymbol⟩

/-- `ListParser::is_start_of_new_item`. -/
def is_start_of_new_item (line : List Char) (lineNumber : Nat) :
    Except ParseError IsStartOfNewLineResult :=
  isStartLoop line lineNumber line 0 .Zero

/-- One source item of the list block (`ItemInSource`). -/
structure ItemInSource where
  indent : Indent
  symbol : String
  is_ordered : Bool
  content : List Char
  span : SourceSpan
deriving DecidableEq, Repr

/-- The line loop of `ListParser::find_items_in_src`: item-start lines
open a new item; any other line is appended (`push_str`, with no
joining character) to the last item, whose absence
(`items.last_mut().unwrap()`) is the modelled panic. -/
def findItemsLoop (spanStartLine : Nat) :
    List (List Char) → Nat → List ItemInSource →
    Option (Except ParseError (List ItemInSource))
  | [], _, items => some (.ok items)
  | line :: rest, index, items =>
    let lineNumber := spanStartLine + index
    match is_start_of_new_item line lineNumber with
    | .error e => some (.error e)
    | .ok r =>
      if r.is_start_of_new_item then
        let indentCount := r.indent.count
        let symbolLength := r.symbol.length
        let item : ItemInSource :=
          ⟨r.indent, r.symbol, r.is_ordered,
           line.drop (indentCount + symbolLength + 1),
           ⟨⟨lineNumber, 1⟩, ⟨lineNumber, line.length + 1⟩⟩⟩
        findItemsLoop spanStartLine rest (index + 1) (items ++ [item])
      else
        match items.getLast? with
        | none => none
        | some lastItem =>
          let lastItem := { lastItem with
            content := lastItem.content ++ line
            span := ⟨lastItem.span.start, ⟨lineNumber, line.length + 1⟩⟩ }
          findItemsLoop spanStartLine rest (index + 1)
            (items.dropLast ++ [lastItem])

/-- `ListParser::find_items_in_src`. -/
def find_items_in_src (src : List Char) (span : SourceSpan) :
    Option (Except ParseError (List ItemInSource)) :=
  findItemsLoop span.start.line (rustLines src) 0 []

/-- The item loop of `ListParser::parse`: a stack of parent node ids and
the matching stack of required indents (both Vec-style, last element on
top). -/
def parseLoop : List ItemInSource → ListTree → List Nat → List Indent →
    Option (Except ParseError ListTree)
  | [], tree, _, _ => some (.ok tree)
  | item :: rest, tree, parentStack, requiredIndents =>
    match parentStack.getLast? with
    | none => none
    | some parentNodeId =>
      let parentNodeLevel := parentStack.length
      match requiredIndents.get? (parentNodeLevel - 1) with
      | none => none
      | some requiredIndentForSameLevel =>
        let listNodeStyle : ListNodeStyle :=
          if item.is_ordered then .Ordered else .Unordered
        match TextParser.parse item.content item.span with
        | none => none
        | some (.error e) => some (.error e)
        | some (.ok textTree) =>
          if item.indent = requiredIndentForSameLevel then
            match tree.registerNode parentNodeId (.Leaf textTree)
                listNodeStyle with
            | none => none
            | some (tree, _) =>
              parseLoop rest tree parentStack requiredIndents
          else if requiredIndentForSameLevel.count < item.indent.count then
            match tree.registerNode parentNodeId .Parent listNodeStyle with
            | none => none
            | some (tree, newParentNodeId) =>
              match tree.registerNode newParentNodeId (.Leaf textTree)
                  listNodeStyle with
              | none => none
              | some (tree, _) =>
                parseLoop rest tree (parentStack ++ [newParentNodeId])
                  (requiredIndents ++ [item.indent])
          else
            let requiredIndents := requiredIndents.dropLast
            let parentStack := parentStack.dropLast
            match parentStack.getLast? with
            | none => none
            | some newParentNodeId =>
              match tree.registerNode newParentNodeId (.Leaf textTree)
                  listNodeStyle with
              | none => none
              | some (tree, _) =>
                parseLoop rest tree parentStack requiredIndents

/-- `ListParser::parse`. -/
def parse (src : List Char) (span : SourceSpan) :
    Option (Except ParseError ParsedBlock) :=
  match find_items_in_src src span with
  | none => none
  | some (.error e) => some (.error e)
  | some (.ok items) =>
    match parseLoop items ListTree.new [0] [.Zero] with
    | none => none
    | some (.error e) => some (.error e)
    | some (.ok tree) => some (.ok (.List tree))

end ListParser

namespace FunctionParser

/-- The name loop of `FunctionParser::parse`: `#` is skipped, whitespace
is an error, `(` stops the scan; `offset` counts the consumed
characters.  Returns the error, or the name and offset. -/
def nameLoop : List Char → String → Nat → SourcePosition →
    Except ParseError (String × Nat)
  | [], name, offset, _ => .ok (name, offset)
  | c :: rest, name, offset, startPos =>
    if c = '#' then nameLoop rest name (offset + 1) startPos
    else if c = ' ' ∨ c = '\t' then
      .error ⟨"Unexpected whitespace in function name", startPos⟩
    else if c = '(' then .ok (name, offset)
    else nameLoop rest (name.push c) (offset + 1) startPos

/-- The parameter-entry loop of `FunctionParser::parse`: each
comma-separated entry is split at `:`; the source calls
`parts.next().unwrap()` twice, so an entry without a `:` panics
(`none`). -/
def entriesLoop : List (List Char) → List (String × String) →
    Option (List (String × String))
  | [], parameters => some parameters
  | entry :: rest, parameters =>
    let parts := splitOnChar ':' entry
    match parts.get? 0, parts.get? 1 with
    | some keyPart, some valuePart =>
      let key := trimString ⟨keyPart⟩
      let value := trimString ⟨valuePart⟩
      entriesLoop rest (hashMapInsert parameters key value)
    | _, _ => none

/-- `FunctionParser::parse` (parser/function.rs). -/
def parse (src : List Char) (span : SourceSpan) :
    Option (Except ParseError ParsedBlock) :=
  let src := trimChars src
  match nameLoop src "" 0 span.start with
  | .error e => some (.error e)
  | .ok (name, offset) =>
    if name.isEmpty then
      some (.error ⟨"Function name is empty", span.start⟩)
    else
      let src := src.drop offset
      if src.get? 0 = some '(' then
        if src.getLast? ≠ some ')' then
          some (.error
            ⟨"Expected closing parenthesis for function parameters",
             span.start⟩)
        else
          let parametersStr := (src.drop 1).dropLast
          if parametersStr.isEmpty then
            some (.ok (.Function name []))
          else
            match entriesLoop (splitOnChar ',' parametersStr) [] with
            | none => none
            | some parameters => some (.ok (.Function name parameters))
      else
        some (.ok (.Function name []))

end FunctionParser

namespace CodeParser

/-- The language-identifier loop of `CodeParser::find_header`:
whitespace stops the scan, a backtick clears the collected identifier
and stops. -/
def languageLoop : List Char → String → String
  | [], acc => acc
  | c :: rest, acc =>
    if c = ' ' ∨ c = '\t' ∨ c = '\n' then acc
    else if c = '`' then ""
    else languageLoop rest (acc.push c)

/-- `CodeParser::find_header`. -/
def find_header (src : List Char) (span : SourceSpan) :
    Except ParseError (Nat × Option String) :=
  let trimmedSrc := trimStartChars src
  let offset := src.length - trimmedSrc.length
  if trimmedSrc.take 3 = ['`', '`', '`'] then
    let offset := offset + 3
    let languageIdentifier := languageLoop (trimmedSrc.drop 3) ""
    .ok (offset + languageIdentifier.length,
         if languageIdentifier.isEmpty then none
         else some languageIdentifier)
  else
    .error ⟨"Code block must be started with '```'", span.start⟩

/-- `CodeParser::find_footer`: the offset counts from the end-trimmed
source but the fence test runs on the untrimmed source. -/
def find_footer (src : List Char) (span : SourceSpan) :
    Except ParseError Nat :=
  let trimmedSrcLen := (trimEndChars src).length
  if (src.reverse.take 3) = ['`', '`', '`'] then
    .ok (trimmedSrcLen - 3)
  else
    .error ⟨"Code block must be ended with '```'", span.stop⟩

/-- `CodeParser::parse`.  The slice
`self.src[header.offset..footer.offset]` panics when the header offset
exceeds the footer offset (for example on the block `` ``` `` alone);
`none` models that. -/
def parse (src : List Char) (span : SourceSpan) :
    Option (Except ParseError ParsedBlock) :=
  match find_header src span with
  | .error e => some (.error e)
  | .ok (headerOffset, languageIdentifier) =>
    match find_footer src span with
    | .error e => some (.error e)
    | .ok footerOffset =>
      if headerOffset ≤ footerOffset ∧ footerOffset ≤ src.length then
        let codeSrc :=
          trimChars ((src.take footerOffset).drop headerOffset)
        some (.ok (.Code languageIdentifier ⟨codeSrc⟩))
      else none

end CodeParser

namespace ImageParser

/-- The closing-bracket scan of `ImageParser::parse`: nested `[`s
suppress as many `]`s; when no unmatched `]` exists the offset keeps its
initial value 0, exactly as in the source. -/
def closingBracketLoop : List Char → Nat → Nat → Nat
  | [], _, _ => 0
  | c :: rest, i, ignoreNextClosingBrackets =>
    if c = '[' then closingBracketLoop rest (i + 1)
      (ignoreNextClosingBrackets + 1)
    else if c = ']' then
      if 0 < ignoreNextClosingBrackets then
        closingBracketLoop rest (i + 1) (ignoreNextClosingBrackets - 1)
      else i
    else closingBracketLoop rest (i + 1) ignoreNextClosingBrackets

/-- `ImageParser::parse` (parser/image.rs).  The two byte slices
(`&src[2..]` and `&src[closing_bracket_offset + 2..]`) panic when they
overrun the source; `none` models those. -/
def parse (src0 : List Char) (span : SourceSpan) :
    Option (Except ParseError ParsedBlock) :=
  let src := trimChars src0
  let offset := src0.length - src.length
  if src.length < 2 then none
  else
    let src := src.drop 2
    let closingBracketOffset := closingBracketLoop src 0 0
    let textSrc := trimChars (src.take closingBracketOffset)
    let textSpan : SourceSpan :=
      ⟨⟨span.start.line, offset + 2⟩,
       ⟨span.start.line, offset + 2 + closingBracketOffset⟩⟩
    match TextParser.parse textSrc textSpan with
    | none => none
    | some (.error e) => some (.error e)
    | some (.ok textTree) =>
      if src.length < closingBracketOffset + 2 then none
      else
        let src := src.drop (closingBracketOffset + 2)
        let imageSrc : String := ⟨src.takeWhile (· != ')')⟩
        some (.ok (.Image textTree imageSrc))

end ImageParser

namespace TableParser

/-- `RowKind::for_line_index`: row 0 is the header, row 1 the discarded
separator, the rest are body rows. -/
inductive RowKind where
  | Header | HeaderSeparator | Body
deriving DecidableEq, Repr

def RowKind.for_line_index (lineIndex : Nat) : RowKind :=
  match lineIndex with
  | 0 => .Header
  | 1 => .HeaderSeparator
  | _ => .Body

/-- `TableParser::create_cell`: trim the buffered cell value and parse
it as a text tree; the cell span mirrors the source's offset
arithmetic. -/
def create_cell (value : List Char) (lineNumber offset : Nat) :
    Option (Except ParseError TableCell) :=
  let trimmedValue := trimChars value
  let cellSpan : SourceSpan :=
    ⟨⟨lineNumber, offset - value.length⟩,
     ⟨lineNumber, offset - (value.length - trimmedValue.length)⟩⟩
  match TextParser.parse trimmedValue cellSpan with
  | none => none
  | some (.error e) => some (.error e)
  | some (.ok textTree) => some (.ok ⟨textTree⟩)

/-- `TableParser::consume_buffer_and_register_cell`. -/
def consumeBufferAndRegisterCell (headerRow : TableRow)
    (rows : List TableRow) (value : List Char)
    (lineNumber offset rowIndex : Nat) :
    Option (Except ParseError (TableRow × List TableRow)) :=
  match RowKind.for_line_index rowIndex with
  | .HeaderSeparator => some (.ok (headerRow, rows))
  | .Header =>
    match create_cell value lineNumber offset with
    | none => none
    | some (.error e) => some (.error e)
    | some (.ok cell) => some (.ok (headerRow ++ [cell], rows))
  | .Body =>
    match create_cell value lineNumber offset with
    | none => none
    | some (.error e) => some (.error e)
    | some (.ok cell) =>
      let internalRowIndex := rowIndex - 2
      let rows :=
        if rows.length ≤ internalRowIndex then rows ++ [[]] else rows
      match rows.getLast? with
      | none => none
      | some lastRow =>
        some (.ok (headerRow, rows.dropLast ++ [lastRow ++ [cell]]))

/-- The character loop over one table line. -/
def lineLoop (lineNumber rowIndex : Nat) :
    List Char → Bool → Nat → List Char → TableRow → List TableRow →
    Option (Except ParseError (TableRow × List TableRow))
  | [], _, _, _, headerRow, rows => some (.ok (headerRow, rows))
  | c :: rest, startedRow, offset, cellValueBuffer, headerRow, rows =>
    if c = '|' then
      if startedRow then
        match consumeBufferAndRegisterCell headerRow rows cellValueBuffer
            lineNumber offset rowIndex with
        | none => none
        | some (.error e) => some (.error e)
        | some (.ok (headerRow, rows)) =>
          lineLoop lineNumber rowIndex rest startedRow (offset + 1) []
            headerRow rows
      else
        lineLoop lineNumber rowIndex rest true (offset + 1)
          cellValueBuffer headerRow rows
    else if c = '\n' then
      lineLoop lineNumber rowIndex rest false (offset + 1)
        cellValueBuffer headerRow rows
    else
      lineLoop lineNumber rowIndex rest startedRow (offset + 1)
        (cellValueBuffer ++ [c]) headerRow rows

/-- The row loop of `TableParser::parse`. -/
def rowsLoop (spanStartLine : Nat) :
    List (List Char) → Nat → TableRow → List TableRow →
    Option (Except ParseError (TableRow × List TableRow))
  | [], _, headerRow, rows => some (.ok (headerRow, rows))
  | line :: rest, rowIndex, headerRow, rows =>
    let lineNumber := spanStartLine + rowIndex
    match lineLoop lineNumber rowIndex line false 1 [] headerRow rows with
    | none => none
    | some (.error e) => some (.error e)
    | some (.ok (headerRow, rows)) =>
      rowsLoop spanStartLine rest (rowIndex + 1) headerRow rows

/-- `TableParser::parse`. -/
def parse (src : List Char) (span : SourceSpan) :
    Option (Except ParseError ParsedBlock) :=
  match rowsLoop span.start.line (rustLines src) 0 [] [] with
  | none => none
  | some (.error e) => some (.error e)
  | some (.ok (headerRow, rows)) => some (.ok (.Table headerRow rows))

end TableParser

namespace QuoteParser

/-- One classified quote line (`IndentedQuoteLine`). -/
structure IndentedQuoteLine where
  line : List Char
  line_number : Nat
  indent : Nat
  offset : Nat
deriving DecidableEq, Repr

/-- The character loop of `find_indented_quote_lines` over one line:
whitespace and `>`s are consumed (each `>` deepening the indent) until
the first other character; meeting it at indent 0 is the
quote-line-without-marker error. -/
def lineScan (lineNumber : Nat) :
    List Char → Nat → Nat → Except ParseError (Nat × Nat)
  | [], indent, offset => .ok (indent, offset)
  | c :: rest, indent, offset =>
    if c = '\t' ∨ c = ' ' then lineScan lineNumber rest indent (offset + 1)
    else if c = '>' then lineScan lineNumber rest (indent + 1) (offset + 1)
    else
      if indent = 0 then
        .error ⟨"Found no quote line start character '>' in line " ++
          toString lineNumber, ⟨lineNumber, offset + 1⟩⟩
      else .ok (indent, offset)

/-- `QuoteParser::find_indented_quote_lines`. -/
def findIndentedQuoteLinesLoop (startLine : Nat) :
    List (List Char) → Nat → List IndentedQuoteLine →
    Except ParseError (List IndentedQuoteLine)
  | [], _, result => .ok result
  | line :: rest, lineNumber, result =>
    match lineScan lineNumber line 0 0 with
    | .error e => .error e
    | .ok (indent, offset) =>
      findIndentedQuoteLinesLoop startLine rest (lineNumber + 1)
        (result ++ [⟨line.drop offset, lineNumber, indent, offset⟩])

def find_indented_quote_lines (src : List Char) (span : SourceSpan) :
    Except ParseError (List IndentedQuoteLine) :=
  findIndentedQuoteLinesLoop span.start.line (rustLines src)
    span.start.line []

/-- `QuoteParser::consume_text_buffer_into_node`: parse the accumulated
text buffer and attach it as a Leaf under the given parent. -/
def consumeTextBufferIntoNode (tree : QuoteTree) (textBuffer : List Char)
    (l : IndentedQuoteLine) (currentParentId : Nat)
    (startLineNumber startOffset : Nat) :
    Option (Except ParseError QuoteTree) :=
  let span : SourceSpan :=
    ⟨⟨startLineNumber, startOffset + 1⟩,
     ⟨l.line_number, l.offset + 1 + l.line.length⟩⟩
  match TextParser.parse textBuffer span with
  | none => none
  | some (.error e) => some (.error e)
  | some (.ok textTree) =>
    match tree.registerNode currentParentId (.Leaf textTree) with
    | none => none
    | some (tree, _) => some (.ok tree)

/-- The pop-while of the dedent branch: pop both stacks while the top
indent exceeds the target (fuelled by the stack height, which bounds
the number of pops exactly). -/
def popWhileGreaterAux : Nat → List Nat → List Nat → Nat →
    List Nat × List Nat
  | 0, indents, parentIds, _ => (indents, parentIds)
  | fuel + 1, indents, parentIds, target =>
    match indents.getLast? with
    | some top =>
      if target < top then
        popWhileGreaterAux fuel indents.dropLast parentIds.dropLast target
      else (indents, parentIds)
    | none => (indents, parentIds)

def popWhileGreater (indents parentIds : List Nat) (target : Nat) :
    List Nat × List Nat :=
  popWhileGreaterAux indents.length indents parentIds target

/-- The line loop of `QuoteParser::parse` (the `for` over the indented
quote lines with its mutable stacks and text buffer). -/
def parseLoop (total : Nat) :
    List IndentedQuoteLine → QuoteTree → List Nat → List Nat →
    List Char → Nat → Nat → Nat →
    Option (Except ParseError QuoteTree)
  | [], tree, _, _, _, _, _, _ => some (.ok tree)
  | l :: rest, tree, parentNodeIds, indents, textBuffer,
      startLineNumber, startOffset, counter =>
    let (indents, startLineNumber, startOffset) :=
      if indents.isEmpty then
        ([l.indent], l.line_number, l.offset)
      else (indents, startLineNumber, startOffset)
    match parentNodeIds.getLast?, indents.getLast? with
    | some currentParentId, some currentIndent =>
      let step :
          Option (Except ParseError
            (QuoteTree × List Nat × List Nat × List Char × Nat × Nat ×
              Nat)) :=
        if currentIndent = l.indent then
          let textBuffer :=
            if textBuffer.isEmpty then textBuffer else textBuffer ++ [' ']
          some (.ok (tree, parentNodeIds, indents,
            textBuffer ++ l.line, startLineNumber, startOffset,
            currentParentId))
        else if currentIndent < l.indent then
          match consumeTextBufferIntoNode tree textBuffer l
              currentParentId startLineNumber startOffset with
          | none => none
          | some (.error e) => some (.error e)
          | some (.ok tree) =>
            match tree.registerNode currentParentId .Parent with
            | none => none
            | some (tree, newParentId) =>
              some (.ok (tree, parentNodeIds ++ [newParentId],
                indents ++ [l.indent], l.line, l.line_number, l.offset,
                newParentId))
        else
          match consumeTextBufferIntoNode tree textBuffer l
              currentParentId startLineNumber startOffset with
          | none => none
          | some (.error e) => some (.error e)
          | some (.ok tree) =>
            let (indents, parentNodeIds) :=
              popWhileGreater indents parentNodeIds l.indent
            match parentNodeIds.getLast? with
            | none => none
            | some currentParentId =>
              some (.ok (tree, parentNodeIds, indents, l.line,
                l.line_number, l.offset, currentParentId))
      match step with
      | none => none
      | some (.error e) => some (.error e)
      | some (.ok (tree, parentNodeIds, indents, textBuffer,
          startLineNumber, startOffset, currentParentId)) =>
        let isLast := counter = total - 1
        if isLast then
          match consumeTextBufferIntoNode tree textBuffer l
              currentParentId startLineNumber startOffset with
          | none => none
          | some (.error e) => some (.error e)
          | some (.ok tree) =>
            parseLoop total rest tree parentNodeIds indents []
              startLineNumber startOffset (counter + 1)
        else
          parseLoop total rest tree parentNodeIds indents textBuffer
            startLineNumber startOffset (counter + 1)
    | _, _ => none

/-- `QuoteParser::parse`. -/
def parse (src : List Char) (span : SourceSpan) :
    Option (Except ParseError ParsedBlock) :=
  match find_indented_quote_lines src span with
  | .error e => some (.error e)
  | .ok indentedQuoteLines =>
    match parseLoop indentedQuoteLines.length indentedQuoteLines
        QuoteTree.new [0] [] [] 0 0 0 with
    | none => none
    | some (.error e) => some (.error e)
    | some (.ok tree) => some (.ok (.Quote tree))

end QuoteParser

/-- `BlockParser::parse` (parser/mod.rs): dispatch on the categorised
kind. -/
def BlockParser.parse (kind : BlockKind) (src : List Char)
    (span : SourceSpan) : Option (Except ParseError ParsedBlock) :=
  match kind with
  | .Text =>
    match TextParser.parse src span with
    | none => none
    | some (.error e) => some (.error e)
    | some (.ok tree) => some (.ok (.Text tree))
  | .Heading => HeadingParser.parse src span
  | .List => ListParser.parse src span
  | .HorizontalRule => some (.ok .HorizontalRule)
  | .Code => CodeParser.parse src span
  | .Table => TableParser.parse src span
  | .Image => ImageParser.parse src span
  | .Quote => QuoteParser.parse src span
  | .Function => FunctionParser.parse src span

/-! ## Letter Script tree (transformer/tree) -/

/-- Script node kinds (transformer/tree/node.rs). -/
inductive LetterScriptNodeKind where
  | Root
  | Text (s : String)
  | Heading
  | Paragraph
  | Section
  | Image (src : String)
  | Quote
  | List (ordered : Bool)
  | ListItem
  | HorizontalRule
  | Link (target : String)
  | Bold
  | Italic
  | Code (language : Option String)
  | Table
  | TableHeaderRow
  | TableRow
  | TableCell
  | Function (name : String) (parameters : List (String × String))
deriving DecidableEq, Repr

/-- Script node: id, kind and ordered children as in the source; the
`parent` field records the parent id passed to `register_node` (the
source keeps only the child edge; the parent pointer is the same
information read back, recorded here so that ancestor chains can be
stated).  The stored span is inert (the serialiser never reads it) and
omitted. -/
structure LetterScriptNode where
  id : Nat
  kind : LetterScriptNodeKind
  children : List Nat
  parent : Option Nat
deriving DecidableEq, Repr

/-- The Script Tree arena (`LetterScriptTree`); ids are list indices,
the root has id 0. -/
structure LetterScriptTree where
  nodes : List LetterScriptNode
deriving DecidableEq, Repr

/-- `LetterScriptTree::new`. -/
def LetterScriptTree.new : LetterScriptTree :=
  ⟨[⟨0, .Root, [], none⟩]⟩

/-- The root id. -/
def LetterScriptTree.rootId (_tree : LetterScriptTree) : Nat := 0

/-- `LetterScriptTree::get_node` without the unwrap. -/
def LetterScriptTree.getNode? (tree : LetterScriptTree) (id : Nat) :
    Option LetterScriptNode :=
  tree.nodes.get? id

/-- Add the freshly issued id to the parent's child list (the
`get_mut(&parent_id)` update inside `register_node`). -/
def updateChildren (parentId id : Nat) (n : LetterScriptNode) :
    LetterScriptNode :=
  if n.id = parentId then { n with children := n.children ++ [id] }
  else n

/-- `LetterScriptTree::register_node`; `none` models the panic of the
parent lookup. -/
def LetterScriptTree.registerNode (tree : LetterScriptTree)
    (parentId : Nat) (kind : LetterScriptNodeKind) :
    Option (LetterScriptTree × Nat) :=
  let id := tree.nodes.length
  if parentId < tree.nodes.length then
    some (LetterScriptTree.mk
      ((tree.nodes ++ [(⟨id, kind, [], some parentId⟩ : LetterScriptNode)]).map
        (updateChildren parentId id)), id)
  else none

/-! ## Serialiser (`LetterScriptTree::to_string`) -/

/-- Sort the parameter entries by key (`entries.sort_by(key cmp)`); an
insertion sort keeps the definition kernel-reducible. -/
def insertByKey (p : String × String) :
    List (String × String) → List (String × String)
  | [] => [p]
  | q :: rest =>
    if p.1 < q.1 then p :: q :: rest else q :: insertByKey p rest

def sortEntriesByKey (l : List (String × String)) :
    List (String × String) :=
  l.foldl (fun acc p => insertByKey p acc) []

/-- `LetterScriptTree::stringify_node_start`: the opening-tag line (or
the re-indented literal text), indent included, newline terminated. -/
def stringifyNodeStart (kind : LetterScriptNodeKind)
    (indentStr : String) : String :=
  let body :=
    match kind with
    | .Text text =>
      String.intercalate ("\n" ++ indentStr)
        ((splitOnChar '\n' text.data).map fun l => (⟨l⟩ : String))
    | .Heading => "<heading>"
    | .Paragraph => "<paragraph>"
    | .Section => "<section>"
    | .Image src => "<image src=\"" ++ src ++ "\">"
    | .Quote => "<quote>"
    | .List ordered =>
      if ordered then "<list ordered=\"true\">" else "<list>"
    | .ListItem => "<list-item>"
    | .HorizontalRule => "<horizontal-rule/>"
    | .Link target => "<link target=\"" ++ target ++ "\">"
    | .Bold => "<b>"
    | .Italic => "<i>"
    | .Code language =>
      "<code" ++
        (match language with
         | some language => " language=\"" ++ language ++ "\""
         | none => "") ++ ">"
    | .Table => "<table>"
    | .TableHeaderRow => "<table-header-row>"
    | .TableRow => "<table-row>"
    | .TableCell => "<table-cell>"
    | .Function name parameters =>
      "<" ++ name ++
        String.join ((sortEntriesByKey parameters).map fun p =>
          " " ++ p.1 ++ "=\"" ++ p.2 ++ "\"") ++ ">"
    | .Root => ""
  indentStr ++ body ++ "\n"

/-- `LetterScriptTree::stringify_node_end`: the closing-tag line, empty
for void and text nodes. -/
def stringifyNodeEnd (kind : LetterScriptNodeKind)
    (indentStr : String) : String :=
  let s :=
    match kind with
    | .Heading => "</heading>"
    | .Paragraph => "</paragraph>"
    | .Section => "</section>"
    | .Image _ => "</image>"
    | .Quote => "</quote>"
    | .List _ => "</list>"
    | .ListItem => "</list-item>"
    | .Link _ => "</link>"
    | .Bold => "</b>"
    | .Italic => "</i>"
    | .Code _ => "</code>"
    | .Table => "</table>"
    | .TableHeaderRow => "</table-header-row>"
    | .TableRow => "</table-row>"
    | .TableCell => "</table-cell>"
    | .Function name _ => "</" ++ name ++ ">"
    | _ => ""
  if s.isEmpty then "" else indentStr ++ s ++ "\n"

/-- `LetterScriptTree::stringify_node` over a list of sibling node ids:
depth-first, children indented four further spaces.  Fuelled recursion
over the arena (child descent and sibling steps both spend fuel);
`none` models the unwrap on a dangling child id, or fuel exhaustion,
which cannot occur on the trees the transformer builds when the fuel is
twice the arena size. -/
def stringifyNodes : Nat → LetterScriptTree → List Nat → Nat →
    Option String
  | 0, _, _, _ => none
  | _ + 1, _, [], _ => some ""
  | fuel + 1, tree, nodeId :: rest, indent =>
    match tree.getNode? nodeId with
    | none => none
    | some node =>
      let indentString : String := ⟨List.replicate indent ' '⟩
      match stringifyNodes fuel tree node.children (indent + 4) with
      | none => none
      | some childStr =>
        match stringifyNodes fuel tree rest indent with
        | none => none
        | some restStr =>
          some (stringifyNodeStart node.kind indentString ++
            childStr ++
            stringifyNodeEnd node.kind indentString ++ restStr)

/-- `LetterScriptTree::to_string`. -/
def LetterScriptTree.toOutput (tree : LetterScriptTree) :
    Option String :=
  match tree.getNode? tree.rootId with
  | none => none
  | some rootNode =>
    stringifyNodes (2 * tree.nodes.length + 4) tree rootNode.children 0

/-! ## Transformer (transformer/mod.rs)

Every function threads the script tree and the node stack (Vec-style:
the last element is `node_stack.last()`); `none` models the panics
(`last().unwrap()` on an empty stack, `get_node(..).unwrap()` on a
dangling id, and the `unreachable!()` on a Root-kind text node met as a
child).  The recursions over the input arenas are fuelled by the arena
size, which bounds the depth of every tree the parsers build; running
out of fuel — possible only on a cyclic arena, on which the source
would not terminate — is also `none`. -/

/-- `transform_text_node` over a list of sibling text-node ids (the
source's recursion together with its child `for` loop): each id maps to
a Script node registered under the stack top, the id is pushed, the
children are folded, the id is popped, and the next sibling follows.
Fuelled (child descent and sibling steps both spend fuel); `none`
models the panics (dangling id, Root-kind child — the source's
`unreachable!()` — and fuel exhaustion, possible only on a cyclic
arena, on which the source would not terminate). -/
def transformTextNodes (textTree : TextTree) :
    Nat → LetterScriptTree → List Nat → List Nat →
    Option (LetterScriptTree × List Nat)
  | 0, _, _, _ => none
  | _ + 1, tree, nodeStack, [] => some (tree, nodeStack)
  | fuel + 1, tree, nodeStack, textNodeId :: rest =>
    match nodeStack.getLast? with
    | none => none
    | some parentId =>
      match textTree.getNode? textNodeId with
      | none => none
      | some textNode =>
        let nodeKind : Option LetterScriptNodeKind :=
          match textNode.kind with
          | .Text src => some (.Text src)
          | .Bold => some .Bold
          | .Italic => some .Italic
          | .Code => some (.Code none)
          | .Link target => some (.Link target)
          | .Image src => some (.Image src)
          | .Function name parameters =>
            some (.Function name parameters)
          | .Root => none  -- the source's `unreachable!()`
        match nodeKind with
        | none => none
        | some nodeKind =>
          match tree.registerNode parentId nodeKind with
          | none => none
          | some (tree, nodeId) =>
            match transformTextNodes textTree fuel tree
                (nodeStack ++ [nodeId]) textNode.children with
            | none => none
            | some (tree, nodeStack) =>
              transformTextNodes textTree fuel tree nodeStack.dropLast
                rest

/-- `transform_text_tree`: fold the children of the text-tree root. -/
def transformTextTree (tree : LetterScriptTree) (nodeStack : List Nat)
    (textTree : TextTree) : Option (LetterScriptTree × List Nat) :=
  match textTree.getNode? 0 with
  | none => none
  | some root =>
    transformTextNodes textTree (2 * textTree.nodes.length + 4) tree
      nodeStack root.children

/-- The section-counting loop of `transform_heading_block`
(`current_level` starts at 1 and counts the Section nodes on the
stack). -/
def currentLevelLoop (tree : LetterScriptTree) :
    List Nat → Nat → Option Nat
  | [], acc => some acc
  | id :: rest, acc =>
    match tree.getNode? id with
    | none => none
    | some n =>
      currentLevelLoop tree rest
        (if n.kind = .Section then acc + 1 else acc)

/-- The Section-pushing loop of `transform_heading_block`. -/
def pushSections : Nat → LetterScriptTree → List Nat →
    Option (LetterScriptTree × List Nat)
  | 0, tree, nodeStack => some (tree, nodeStack)
  | n + 1, tree, nodeStack =>
    match nodeStack.getLast? with
    | none => none
    | some parentId =>
      match tree.registerNode parentId .Section with
      | none => none
      | some (tree, sectionNodeId) =>
        pushSections n tree (nodeStack ++ [sectionNodeId])

/-- The pop loop of `transform_heading_block` (`Vec::pop` on an empty
vector is a no-op in the source as well). -/
def popN : Nat → List Nat → List Nat
  | 0, nodeStack => nodeStack
  | n + 1, nodeStack => popN n nodeStack.dropLast

/-- The tail of `transform_heading_block` after the stack has been
adjusted to the heading's level: register the Heading node under the
stack top, transform the heading's text tree below it, pop it. -/
def registerHeadingAndChildren (tree : LetterScriptTree)
    (nodeStack : List Nat) (textTree : TextTree) :
    Option (LetterScriptTree × List Nat) :=
  match nodeStack.getLast? with
  | none => none
  | some parentId =>
    match tree.registerNode parentId .Heading with
    | none => none
    | some (tree, headingNodeId) =>
      match transformTextTree tree (nodeStack ++ [headingNodeId])
          textTree with
      | none => none
      | some (tree, nodeStack) => some (tree, nodeStack.dropLast)

/-- `transform_heading_block`. -/
def transformHeadingBlock (tree : LetterScriptTree)
    (nodeStack : List Nat) (level : Nat) (textTree : TextTree) :
    Option (LetterScriptTree × List Nat) :=
  match currentLevelLoop tree nodeStack 1 with
  | none => none
  | some currentLevel =>
    let adjusted : Option (LetterScriptTree × List Nat) :=
      if currentLevel < level then
        pushSections (level - currentLevel) tree nodeStack
      else if level < currentLevel then
        some (tree, popN (currentLevel - level) nodeStack)
      else some (tree, nodeStack)
    match adjusted with
    | none => none
    | some (tree, nodeStack) =>
      registerHeadingAndChildren tree nodeStack textTree

/-- `transform_list_item` over a list of sibling list-node ids (the
source's recursion together with its child `for` loop), fuelled like
`transformTextNodes`. -/
def transformListItems (listTree : ListTree) :
    Nat → LetterScriptTree → List Nat → List Nat →
    Option (LetterScriptTree × List Nat)
  | 0, _, _, _ => none
  | _ + 1, tree, nodeStack, [] => some (tree, nodeStack)
  | fuel + 1, tree, nodeStack, itemNodeId :: rest =>
    match listTree.getNode? itemNodeId with
    | none => none
    | some listNode =>
      match listNode.kind with
      | .Parent =>
        let isOrdered :=
          match listNode.style with
          | .Ordered => true
          | .Unordered => false
        match nodeStack.getLast? with
        | none => none
        | some parentId =>
          match tree.registerNode parentId (.List isOrdered) with
          | none => none
          | some (tree, listNodeId) =>
            match transformListItems listTree fuel tree
                (nodeStack ++ [listNodeId]) listNode.children with
            | none => none
            | some (tree, nodeStack) =>
              transformListItems listTree fuel tree nodeStack.dropLast
                rest
      | .Leaf textTree =>
        match nodeStack.getLast? with
        | none => none
        | some parentId =>
          match tree.registerNode parentId .ListItem with
          | none => none
          | some (tree, listItemNodeId) =>
            match transformTextTree tree (nodeStack ++ [listItemNodeId])
                textTree with
            | none => none
            | some (tree, nodeStack) =>
              transformListItems listTree fuel tree nodeStack.dropLast
                rest

/-- `transform_list_block`: walk from the list-tree root (id 0). -/
def transformListBlock (tree : LetterScriptTree) (nodeStack : List Nat)
    (listTree : ListTree) : Option (LetterScriptTree × List Nat) :=
  transformListItems listTree (2 * listTree.nodes.length + 4) tree
    nodeStack [0]

/-- `transform_quote_node` over a list of sibling quote-node ids,
fuelled like `transformTextNodes`. -/
def transformQuoteNodes (quoteTree : QuoteTree) :
    Nat → LetterScriptTree → List Nat → List Nat →
    Option (LetterScriptTree × List Nat)
  | 0, _, _, _ => none
  | _ + 1, tree, nodeStack, [] => some (tree, nodeStack)
  | fuel + 1, tree, nodeStack, quoteNodeId :: rest =>
    match quoteTree.getNode? quoteNodeId with
    | none => none
    | some quoteNode =>
      match quoteNode.kind with
      | .Parent =>
        match nodeStack.getLast? with
        | none => none
        | some parentId =>
          match tree.registerNode parentId .Quote with
          | none => none
          | some (tree, nodeId) =>
            match transformQuoteNodes quoteTree fuel tree
                (nodeStack ++ [nodeId]) quoteNode.children with
            | none => none
            | some (tree, nodeStack) =>
              transformQuoteNodes quoteTree fuel tree nodeStack.dropLast
                rest
      | .Leaf textTree =>
        match transformTextTree tree nodeStack textTree with
        | none => none
        | some (tree, nodeStack) =>
          transformQuoteNodes quoteTree fuel tree nodeStack rest

/-- `transform_quote_block`. -/
def transformQuoteBlock (tree : LetterScriptTree) (nodeStack : List Nat)
    (quoteTree : QuoteTree) : Option (LetterScriptTree × List Nat) :=
  transformQuoteNodes quoteTree (2 * quoteTree.nodes.length + 4) tree
    nodeStack [0]

/-- `transform_table_cell`. -/
def transformTableCell (tree : LetterScriptTree) (nodeStack : List Nat)
    (cell : TableCell) : Option (LetterScriptTree × List Nat) :=
  match nodeStack.getLast? with
  | none => none
  | some parentId =>
    match tree.registerNode parentId .TableCell with
    | none => none
    | some (tree, tableCellNodeId) =>
      match transformTextTree tree (nodeStack ++ [tableCellNodeId])
          cell.textTree with
      | none => none
      | some (tree, nodeStack) => some (tree, nodeStack.dropLast)

/-- The cell loop shared by the header-row and body-row transforms. -/
def transformTableCellList (tree : LetterScriptTree)
    (nodeStack : List Nat) :
    List TableCell → Option (LetterScriptTree × List Nat)
  | [] => some (tree, nodeStack)
  | cell :: rest =>
    match transformTableCell tree nodeStack cell with
    | none => none
    | some (tree', nodeStack') =>
      transformTableCellList tree' nodeStack' rest

/-- `transform_table_row`. -/
def transformTableRow (tree : LetterScriptTree) (nodeStack : List Nat)
    (row : TableRow) : Option (LetterScriptTree × List Nat) :=
  match nodeStack.getLast? with
  | none => none
  | some parentId =>
    match tree.registerNode parentId .TableRow with
    | none => none
    | some (tree, tableRowNodeId) =>
      match transformTableCellList tree (nodeStack ++ [tableRowNodeId])
          row with
      | none => none
      | some (tree, nodeStack) => some (tree, nodeStack.dropLast)

/-- `transform_table_header_row`. -/
def transformTableHeaderRow (tree : LetterScriptTree)
    (nodeStack : List Nat) (headerRow : TableRow) :
    Option (LetterScriptTree × List Nat) :=
  match nodeStack.getLast? with
  | none => none
  | some parentId =>
    match tree.registerNode parentId .TableHeaderRow with
    | none => none
    | some (tree, tableHeaderNodeId) =>
      match transformTableCellList tree (nodeStack ++ [tableHeaderNodeId])
          headerRow with
      | none => none
      | some (tree, nodeStack) => some (tree, nodeStack.dropLast)

/-- The body-row loop of `transform_table_block`. -/
def transformTableRowList (tree : LetterScriptTree)
    (nodeStack : List Nat) :
    List TableRow → Option (LetterScriptTree × List Nat)
  | [] => some (tree, nodeStack)
  | row :: rest =>
    match transformTableRow tree nodeStack row with
    | none => none
    | some (tree', nodeStack') =>
      transformTableRowList tree' nodeStack' rest

/-- `transform_table_block`. -/
def transformTableBlock (tree : LetterScriptTree) (nodeStack : List Nat)
    (headerRow : TableRow) (rows : List TableRow) :
    Option (LetterScriptTree × List Nat) :=
  match nodeStack.getLast? with
  | none => none
  | some parentId =>
    match tree.registerNode parentId .Table with
    | none => none
    | some (tree, tableNodeId) =>
      match transformTableHeaderRow tree (nodeStack ++ [tableNodeId])
          headerRow with
      | none => none
      | some (tree, nodeStack) =>
        match transformTableRowList tree nodeStack rows with
        | none => none
        | some (tree, nodeStack) => some (tree, nodeStack.dropLast)

/-- `transform_image_block`. -/
def transformImageBlock (tree : LetterScriptTree) (nodeStack : List Nat)
    (textTree : TextTree) (src : String) :
    Option (LetterScriptTree × List Nat) :=
  match nodeStack.getLast? with
  | none => none
  | some parentId =>
    match tree.registerNode parentId (.Image src) with
    | none => none
    | some (tree, nodeId) =>
      match transformTextTree tree (nodeStack ++ [nodeId]) textTree with
      | none => none
      | some (tree, nodeStack) => some (tree, nodeStack.dropLast)

/-- `transform_code_block`. -/
def transformCodeBlock (tree : LetterScriptTree) (nodeStack : List Nat)
    (language : Option String) (src : String) :
    Option (LetterScriptTree × List Nat) :=
  match nodeStack.getLast? with
  | none => none
  | some parentId =>
    match tree.registerNode parentId (.Code language) with
    | none => none
    | some (tree, nodeId) =>
      match tree.registerNode nodeId (.Text src) with
      | none => none
      | some (tree, _) => some (tree, nodeStack)

/-- `transform_function_block`. -/
def transformFunctionBlock (tree : LetterScriptTree)
    (nodeStack : List Nat) (name : String)
    (parameters : List (String × String)) :
    Option (LetterScriptTree × List Nat) :=
  match nodeStack.getLast? with
  | none => none
  | some parentId =>
    match tree.registerNode parentId (.Function name parameters) with
    | none => none
    | some (tree, _) => some (tree, nodeStack)

/-- `transform_horizontal_rule`. -/
def transformHorizontalRule (tree : LetterScriptTree)
    (nodeStack : List Nat) : Option (LetterScriptTree × List Nat) :=
  match nodeStack.getLast? with
  | none => none
  | some parentId =>
    match tree.registerNode parentId .HorizontalRule with
    | none => none
    | some (tree, _) => some (tree, nodeStack)

/-- `transform_text_block`. -/
def transformTextBlock (tree : LetterScriptTree) (nodeStack : List Nat)
    (textTree : TextTree) : Option (LetterScriptTree × List Nat) :=
  match nodeStack.getLast? with
  | none => none
  | some parentId =>
    match tree.registerNode parentId .Paragraph with
    | none => none
    | some (tree, paragraphNodeId) =>
      match transformTextTree tree (nodeStack ++ [paragraphNodeId])
          textTree with
      | none => none
      | some (tree, nodeStack) => some (tree, nodeStack.dropLast)

/-- `transform_block`: dispatch on the parsed block. -/
def transformBlock (tree : LetterScriptTree) (nodeStack : List Nat) :
    ParsedBlock → Option (LetterScriptTree × List Nat)
  | .Text textTree => transformTextBlock tree nodeStack textTree
  | .List listTree => transformListBlock tree nodeStack listTree
  | .Heading level textTree =>
    transformHeadingBlock tree nodeStack level textTree
  | .Table headerRow rows =>
    transformTableBlock tree nodeStack headerRow rows
  | .Image textTree src => transformImageBlock tree nodeStack textTree src
  | .Quote quoteTree => transformQuoteBlock tree nodeStack quoteTree
  | .Code language src => transformCodeBlock tree nodeStack language src
  | .Function name parameters =>
    transformFunctionBlock tree nodeStack name parameters
  | .HorizontalRule => transformHorizontalRule tree nodeStack

/-- The block loop of `transform_blocks`. -/
def transformBlocksLoop (tree : LetterScriptTree) (nodeStack : List Nat) :
    List ParsedBlock → Option (LetterScriptTree × List Nat)
  | [] => some (tree, nodeStack)
  | block :: rest =>
    match transformBlock tree nodeStack block with
    | none => none
    | some (tree', nodeStack') => transformBlocksLoop tree' nodeStack' rest

/-- `transform` (with `transform_blocks`): fold the parsed blocks into a
fresh Script Tree, starting from a stack holding only the root id. -/
def transform (blocks : List ParsedBlock) : Option LetterScriptTree :=
  match transformBlocksLoop LetterScriptTree.new
      [LetterScriptTree.new.rootId] blocks with
  | none => none
  | some (tree, _) => some tree

/-! ## The pipeline entry point (lib.rs `convert`) -/

/-- The per-block stage of `convert`: categorise, then parse, pulled
lazily block by block exactly as the iterator chain in lib.rs works (the
first parse error stops the `collect`; a modelled panic aborts).  The
block spans the splitter computes are not modelled, so a placeholder
span is passed to the parsers; it only seeds source positions inside
tokens and error values, which no theorem about `convert` observes. -/
def convertLoop : List (List Char) → List ParsedBlock →
    Option (Except ParseError (List ParsedBlock))
  | [], acc => some (.ok acc.reverse)
  | src :: rest, acc =>
    match BlockCategorizer.categorize src with
    | none => none
    | some categorizedBlock =>
      match BlockParser.parse categorizedBlock.kind categorizedBlock.src
          ⟨SourcePosition.zero, SourcePosition.zero⟩ with
      | none => none
      | some (.error e) => some (.error e)
      | some (.ok parsedBlock) => convertLoop rest (parsedBlock :: acc)

/-- The parsed-block stream of the pipeline for a whole input: split,
categorise and parse every block. -/
def pipelineParsedBlocks (input : List Char) :
    Option (Except ParseError (List ParsedBlock)) :=
  convertLoop (BlockSplitter.splitBlocks input) []

/-- `convert` (lib.rs lines 20–42): run the splitter → categoriser →
parser chain; on success the source prints the parsed blocks to stdout
and returns `Ok("".to_string())` — the transformer and serialiser are
never invoked.  On failure it returns an error formatted from the parse
error (the `Debug` formatting of the whole result value is abbreviated
to the error message). -/
def convert (input : List Char) : Option (Except String String) :=
  match pipelineParsedBlocks input with
  | none => none
  | some (.ok _blocks) => some (.ok "")
  | some (.error e) =>
    some (.error ("Failed to parse block: " ++ e.message))

/-- Modelled from the spec: the rendered output `convert` is specified
to return — "the final rendered string", i.e. the indented serialisation
of the Script Tree built from the parsed blocks (spec §2, §4.10, §4.11
and the contract `convert(reader) → string | error`).  Both stages it
composes (`transform` and `LetterScriptTree::to_string`) exist in the
source; only their composition with the parsing pipeline follows the
spec's words, because lib.rs never calls them. -/
def specRenderedOutput (input : List Char) : Option String :=
  match pipelineParsedBlocks input with
  | some (.ok blocks) =>
    match transform blocks with
    | some tree => tree.toOutput
    | none => none
  | _ => none

/-! ## Claim-facing definitions -/

/-- A default span for stand-alone parser runs (position (1,1) twice). -/
def zeroSpan : SourceSpan := ⟨SourcePosition.zero, SourcePosition.zero⟩

/-- Join block sources with one blank line between consecutive blocks
(the concatenation named by the splitter-completeness law, spec §8.1). -/
def joinBlocks : List (List Char) → List Char
  | [] => []
  | [b] => b
  | b :: rest => b ++ '\n' :: '\n' :: joinBlocks rest

/-- Number of Section nodes among `id` and its ancestors, walking the
parent pointers; fuelled (on parent-decreasing arenas any fuel above
`id` gives the stable value). -/
def chainSecAux (tree : LetterScriptTree) : Nat → Nat → Nat
  | 0, _ => 0
  | fuel + 1, id =>
    match tree.getNode? id with
    | none => 0
    | some n =>
      (if n.kind = .Section then 1 else 0) +
        (match n.parent with
         | none => 0
         | some p => chainSecAux tree fuel p)

/-- Number of Section ancestors of `id` strictly below it and up to the
root (the node itself excluded). -/
def sectionAncestors (tree : LetterScriptTree) (id : Nat) : Nat :=
  match tree.getNode? id with
  | none => 0
  | some n =>
    match n.parent with
    | none => 0
    | some p => chainSecAux tree (tree.nodes.length + 1) p

/-- The ids of the Heading nodes of a Script Tree in registration
order (ids are issued monotonically, so arena order is id order). -/
def headingIds (tree : LetterScriptTree) : List Nat :=
  (tree.nodes.filter fun n => n.kind == .Heading).map (·.id)

/-- A sequence of parsed Heading blocks, as handed to the transformer. -/
def headingBlocksOf (hs : List (Nat × TextTree)) : List ParsedBlock :=
  hs.map fun p => .Heading p.1 p.2

/-- Arena well-formedness: every node sits at the index equal to its id
and its parent id is strictly smaller.  Every tree the transformer
builds satisfies this because ids are issued monotonically and a parent
always exists before its children. -/
def ParentWf (tree : LetterScriptTree) : Prop :=
  ∀ i n, tree.nodes.get? i = some n →
    n.id = i ∧ ∀ p, n.parent = some p → p < i

/-- Kind of the node with the given id. -/
def kindOf (tree : LetterScriptTree) (id : Nat) :
    Option LetterScriptNodeKind :=
  (tree.getNode? id).map (·.kind)

/-- Parent of the node with the given id (`some none` is the root). -/
def parentOf (tree : LetterScriptTree) (id : Nat) :
    Option (Option Nat) :=
  (tree.getNode? id).map (·.parent)

/-- Registration only ever appends nodes and extends child lists, so a
later tree preserves the kind and parent of every earlier id. -/
def Preserves (t t' : LetterScriptTree) : Prop :=
  t.nodes.length ≤ t'.nodes.length ∧
    ∀ i, i < t.nodes.length →
      kindOf t' i = kindOf t i ∧ parentOf t' i = parentOf t i

/-- The shape of the transformer's node stack between blocks: the root
id 0 at the bottom, a chain of Section nodes above it, each the parent
of the next. -/
inductive StackOk (tree : LetterScriptTree) : List Nat → Prop where
  | base :
      kindOf tree 0 = some .Root → parentOf tree 0 = some none →
      0 < tree.nodes.length → StackOk tree [0]
  | push (stack : List Nat) (s p : Nat) :
      StackOk tree stack → s < tree.nodes.length →
      kindOf tree s = some .Section → stack.getLast? = some p →
      parentOf tree s = some (some p) → StackOk tree (stack ++ [s])

/-- Concatenate char lists. -/
def joinL (ls : List (List Char)) : List Char :=
  ls.foldr (· ++ ·) []

/-- Append extra characters to the last element of a list of char lists
(no-op on an empty list). -/
def appendToLast : List (List Char) → List Char → List (List Char)
  | [], _ => []
  | [b], x => [b ++ x]
  | b :: rest, x => b :: appendToLast rest x

/-- Classification of one list-block line, stripped of the positions it
does not influence: `none` for the mixed-indentation error, otherwise
whether the line starts a new item, together with the content after the
bullet marker (meaningful when it does). -/
def lineClass (line : List Char) : Option (Bool × List Char) :=
  match ListParser.is_start_of_new_item line 1 with
  | .error _ => none
  | .ok r =>
    some (r.is_start_of_new_item,
      line.drop (r.indent.count + r.symbol.length + 1))

/-- Whether a line continues the previous item (neither an item start
nor an error line). -/
def isContinuationLine (line : List Char) : Bool :=
  match lineClass line with
  | some (false, _) => true
  | _ => false

/-- Group the lines of a list block from the right: every item-start
line opens a group carrying its own content and the raw text of the
continuation lines that follow it; the first component collects the
lines before the first item start. -/
def lineGroups : List (List Char) →
    List (List Char) × List (List Char × List (List Char))
  | [] => ([], [])
  | line :: rest =>
    match lineClass line with
    | some (true, content) =>
      ([], (content, (lineGroups rest).1) :: (lineGroups rest).2)
    | _ => (line :: (lineGroups rest).1, (lineGroups rest).2)

/-- The specification of the item contents of a list block: each item's
content is its start line's text after the bullet marker with the raw
text of its continuation lines concatenated directly (no joining
character). -/
def itemContentsSpec (lines : List (List Char)) : List (List Char) :=
  (lineGroups lines).2.map fun g => g.1 ++ joinL g.2

/-! # Claims -/

/-- C1: the pipeline succeeds on the input "# Hi", yet `convert`
returns the empty string, while the rendered serialisation of the
Script Tree built from that input — the string the claim says `convert`
returns — is "<heading>\n    Hi\n</heading>\n".  The two differ, so
`convert` does return an unconditionally empty string on success and
the claim fails. -/
theorem convert_discards_rendered_output :
    convert "# Hi".data = some (.ok "") ∧
    specRenderedOutput "# Hi".data =
      some "<heading>\n    Hi\n</heading>\n" ∧
    ("" : String) ≠ "<heading>\n    Hi\n</heading>\n" :=
  ⟨rfl, rfl, by decide⟩

/-- C3: on the block source "*a [x*](y)" the tokeniser emits one
ItalicStart and no ItalicEnd, because `find_formatting_pair` pairs the
leading star with the star inside the link label, and the queued
ItalicEnd is discarded when the Link token consumes past its offset.
The token stream is unbalanced, refuting the claim. -/
theorem tokenizer_star_balance_broken_by_link :
    (Tokenizer.tokenize "*a [x*](y)".data zeroSpan).map
        (List.map Tokenizer.Token.kind) =
      some [.ItalicStart, .Text "a ", .Link "x*" "y"] ∧
    (Tokenizer.tokenize "*a [x*](y)".data zeroSpan).map
        (fun ts =>
          ((ts.filter fun t => t.kind == .ItalicStart).length,
           (ts.filter fun t => t.kind == .ItalicEnd).length)) =
      some (1, 0) :=
  ⟨rfl, rfl⟩

/-- C4: on the block source "a  b" the tokeniser emits the single Text
token "a  b", whose content keeps the two consecutive spaces of the
source (characters 1 and 2): runs of spaces are not collapsed, refuting
the claim. -/
theorem tokenizer_space_runs_not_collapsed :
    (Tokenizer.tokenize "a  b".data zeroSpan).map
        (List.map Tokenizer.Token.kind) =
      some [.Text "a  b"] ∧
    "a  b".data.get? 1 = some ' ' ∧ "a  b".data.get? 2 = some ' ' :=
  ⟨rfl, rfl, rfl⟩

/-- C5 (counterexample): on the all-whitespace input " " the splitter
emits the block " " — flushed at end of input without trimming — so an
emitted block can keep its whitespace and an all-whitespace input can
yield a nonzero number of blocks, refuting both halves of the claim as
stated. -/
theorem splitter_final_block_untrimmed :
    BlockSplitter.splitBlocks " ".data = [" ".data] ∧
    trimChars " ".data ≠ " ".data ∧
    BlockSplitter.splitBlocks " ".data ≠ [] :=
  ⟨rfl, by decide, by decide⟩

/-- C6: splitting "  ```\nx\n\ny```" gives the blocks "```\nx" and
"y```" (the indented fence is not counted, the buffer no longer being
empty, so the blank line is a boundary); joining them with one blank
line gives "```\nx\n\ny```", whose leading fence now opens a code
region, and re-splitting yields the single block "```\nx\n\ny```" —
not the original sequence.  The round-trip fails, refuting the
claim. -/
theorem splitter_resplit_roundtrip_fails :
    BlockSplitter.splitBlocks "  ```\nx\n\ny```".data =
      ["```\nx".data, "y```".data] ∧
    joinBlocks ["```\nx".data, "y```".data] = "```\nx\n\ny```".data ∧
    BlockSplitter.splitBlocks "```\nx\n\ny```".data =
      ["```\nx\n\ny```".data] ∧
    ["```\nx\n\ny```".data] ≠ ["```\nx".data, "y```".data] :=
  ⟨rfl, rfl, rfl, by decide⟩

/-- C7: on the block "`x" (opening backtick at position (1,1), no later
backtick) the tokeniser emits an Error token carrying position (1,2) —
one past the opening backtick, because the offset has already advanced
when the error is built — and the text parser converts it into a
ParseError at the same (1,2).  The carried position is not the position
of the opening backtick, refuting the error half of the claim; the
no-error half does hold: on "`x`" a code span opens and closes with no
Error token. -/
theorem unterminated_backtick_error_position :
    (Tokenizer.tokenize "`x".data zeroSpan).map
        (List.map Tokenizer.Token.kind) =
      some [.Error "Could not find closing backtick" ⟨1, 2⟩,
            .Text "x"] ∧
    (TextParser.parse "`x".data zeroSpan).map
        (fun r => match r with
          | .ok _ => none
          | .error e => some (e.message, e.sourcePosition)) =
      some (some ("Could not find closing backtick",
            (⟨1, 2⟩ : SourcePosition))) ∧
    (⟨1, 2⟩ : SourcePosition) ≠ ⟨1, 1⟩ ∧
    (Tokenizer.tokenize "`x`".data zeroSpan).map
        (List.map Tokenizer.Token.kind) =
      some [.CodeStart, .Text "x", .CodeEnd] :=
  ⟨rfl, rfl, by decide, rfl⟩

/-- C8: on the Function block "#fn(foo)" the parameter entry "foo" has
no ':' separator, and `FunctionParser::parse` panics
(`parts.next().unwrap()` on the exhausted split iterator) instead of
ignoring the entry — the parse does not return normally, refuting the
claim.  With a separator present ("#fn(a: 1)") the same parser returns
the parsed Function block. -/
theorem function_parser_panics_without_colon :
    FunctionParser.parse "#fn(foo)".data zeroSpan = none ∧
    FunctionParser.parse "#fn(a: 1)".data zeroSpan =
      some (.ok (.Function "fn" [("a", "1")])) :=
  ⟨rfl, rfl⟩

/-- C9 (counterexample): in the List block "- a\nb" the continuation
line "b" is appended to the item content "a" by `push_str` with no
joining character: the resulting content is "ab", not the "a b" the
claim requires. -/
theorem list_continuation_no_space_joiner :
    (ListParser.find_items_in_src "- a\nb".data zeroSpan).map
        (Except.map (List.map ListParser.ItemInSource.content)) =
      some (.ok ["ab".data]) ∧
    "ab".data ≠ "a b".data :=
  ⟨rfl, by decide⟩

/-- C10: on the input "\n\nX" (two blank lines before the first
non-whitespace character) the splitter's boundary branch emits the
trimmed empty block "", the categoriser's unguarded
`src.chars().next().unwrap()` panics on it (modelled `none`), and the
whole pipeline panics instead of returning a value — confirming the
claimed non-totality. -/
theorem pipeline_panics_on_leading_blank_lines :
    BlockSplitter.splitBlocks "\n\nX".data = [[], "X".data] ∧
    BlockCategorizer.categorize [] = none ∧
    convert "\n\nX".data = none :=
  ⟨rfl, rfl, rfl⟩

/-! ## Trimming lemmas (towards the amended C5) -/

theorem dropWhile_self_idem (p : α → Bool) (l : List α) :
    (l.dropWhile p).dropWhile p = l.dropWhile p := by
  induction l with
  | nil => rfl
  | cons c rest ih =>
    by_cases h : p c
    · simp [List.dropWhile_cons, h, ih]
    · simp [List.dropWhile_cons, h]

theorem exists_dropWhile_append (p : α → Bool) (l : List α) :
    ∃ t, l = t ++ l.dropWhile p := by
  induction l with
  | nil => exact ⟨[], rfl⟩
  | cons c rest ih =>
    by_cases h : p c
    · obtain ⟨t, ht⟩ := ih
      exact ⟨c :: t, by simp [List.dropWhile_cons, h]; exact ht⟩
    · exact ⟨[], by simp [List.dropWhile_cons, h]⟩

theorem dropWhile_head_false (p : α → Bool) (l : List α) (c : α)
    (rest : List α) (h : l.dropWhile p = c :: rest) : p c = false := by
  induction l with
  | nil => simp at h
  | cons a l' ih =>
    by_cases ha : p a
    · rw [List.dropWhile_cons, if_pos ha] at h
      exact ih h
    · rw [List.dropWhile_cons, if_neg ha] at h
      cases h
      exact Bool.of_not_eq_true ha

theorem head_false_dropWhile (p : α → Bool) (l : List α)
    (h : ∀ c, l.head? = some c → p c = false) : l.dropWhile p = l := by
  cases l with
  | nil => rfl
  | cons c rest =>
    rw [List.dropWhile_cons, if_neg]
    rw [h c rfl]
    simp

theorem trimChars_head_false (l : List Char) (c : Char)
    (h : (trimChars l).head? = some c) : isRustWs c = false := by
  rw [show trimChars l
        = ((l.dropWhile isRustWs).reverse.dropWhile isRustWs).reverse
      from rfl] at h
  rw [List.head?_reverse] at h
  obtain ⟨t, ht⟩ :=
    exists_dropWhile_append isRustWs (l.dropWhile isRustWs).reverse
  have hne : (l.dropWhile isRustWs).reverse.dropWhile isRustWs ≠ [] := by
    intro h0
    rw [h0] at h
    simp at h
  have hlast : (l.dropWhile isRustWs).reverse.getLast? = some c := by
    rw [ht, List.getLast?_append_of_ne_nil t hne]
    exact h
  rw [List.getLast?_reverse] at hlast
  cases hd : l.dropWhile isRustWs with
  | nil => rw [hd] at hlast; simp at hlast
  | cons x xs =>
    rw [hd] at hlast
    simp at hlast
    rw [← hlast]
    exact dropWhile_head_false isRustWs l x xs hd

theorem trimChars_getLast_false (l : List Char) (c : Char)
    (h : (trimChars l).getLast? = some c) : isRustWs c = false := by
  rw [show trimChars l
        = ((l.dropWhile isRustWs).reverse.dropWhile isRustWs).reverse
      from rfl] at h
  rw [List.getLast?_reverse] at h
  cases hd : (l.dropWhile isRustWs).reverse.dropWhile isRustWs with
  | nil => rw [hd] at h; simp at h
  | cons a b =>
    rw [hd] at h
    simp at h
    rw [h] at hd
    exact dropWhile_head_false isRustWs (l.dropWhile isRustWs).reverse c b
      hd

theorem trimChars_of_clean (l : List Char)
    (h1 : ∀ c, l.head? = some c → isRustWs c = false)
    (h2 : ∀ c, l.getLast? = some c → isRustWs c = false) :
    trimChars l = l := by
  show ((l.dropWhile isRustWs).reverse.dropWhile isRustWs).reverse = l
  rw [head_false_dropWhile _ _ h1]
  rw [head_false_dropWhile _ _ (fun c hc =>
    h2 c (by rwa [List.head?_reverse] at hc))]
  exact List.reverse_reverse l

theorem trimChars_idem (l : List Char) :
    trimChars (trimChars l) = trimChars l :=
  trimChars_of_clean (trimChars l) (trimChars_head_false l)
    (trimChars_getLast_false l)

/-! ## Splitter lemmas (towards the amended C5) -/

theorem nextLoop_emit_trimmed :
    ∀ (chars buffer : List Char) (nl bt : Nat) (ic : Bool)
      (b rem : List Char),
      BlockSplitter.nextLoop chars buffer nl bt ic = some (b, rem) →
      rem ≠ [] → ∃ raw, b = trimChars raw := by
  intro chars
  induction chars with
  | nil =>
    intro buffer nl bt ic b rem h hrem
    simp only [BlockSplitter.nextLoop] at h
    by_cases hb : buffer.isEmpty
    · rw [if_pos hb] at h; simp at h
    · rw [if_neg hb] at h
      cases h
      simp at hrem
  | cons c rest ih =>
    intro buffer nl bt ic b rem h hrem
    simp only [BlockSplitter.nextLoop] at h
    by_cases h1 : c = '\r'
    · rw [if_pos h1] at h; exact ih _ _ _ _ _ _ h hrem
    · rw [if_neg h1] at h
      by_cases h2 : c = '\n'
      · rw [if_pos h2] at h; exact ih _ _ _ _ _ _ h hrem
      · rw [if_neg h2] at h
        by_cases h3 : c = ' ' ∨ c = '\t'
        · rw [if_pos h3] at h; exact ih _ _ _ _ _ _ h hrem
        · rw [if_neg h3] at h
          by_cases h4 : 2 ≤ nl ∧ ic = false
          · rw [if_pos h4] at h
            cases h
            exact ⟨buffer, rfl⟩
          · rw [if_neg h4] at h
            exact ih _ _ _ _ _ _ h hrem

theorem splitBlocksAux_nil (fuel : Nat) :
    BlockSplitter.splitBlocksAux fuel [] = [] := by
  cases fuel <;> rfl

theorem splitBlocksAux_dropLast_trimmed (fuel : Nat) :
    ∀ (chars b : List Char),
      b ∈ (BlockSplitter.splitBlocksAux fuel chars).dropLast →
      trimChars b = b := by
  induction fuel with
  | zero => intro chars b hb; simp [BlockSplitter.splitBlocksAux] at hb
  | succ f ih =>
    intro chars b hb
    simp only [BlockSplitter.splitBlocksAux] at hb
    split at hb
    · simp at hb
    · rename_i blk rem hnl
      by_cases hf : BlockSplitter.splitBlocksAux f rem = []
      · rw [hf] at hb; simp at hb
      · rw [List.dropLast_cons_of_ne_nil hf] at hb
        rcases List.mem_cons.mp hb with hb | hb
        · subst hb
          have hrem : rem ≠ [] := by
            intro h0
            rw [h0, splitBlocksAux_nil] at hf
            exact hf rfl
          obtain ⟨raw, hraw⟩ :=
            nextLoop_emit_trimmed chars [] 0 0 false b rem hnl hrem
          rw [hraw]
          exact trimChars_idem raw
        · exact ih rem b hb

theorem nextLoop_all_ws :
    ∀ (chars buffer : List Char) (nl bt : Nat) (ic : Bool),
      (∀ c ∈ chars, c = ' ' ∨ c = '\t' ∨ c = '\n' ∨ c = '\r') →
      BlockSplitter.nextLoop chars buffer nl bt ic =
        (if buffer ++ chars.filter (fun c => c != '\r') = [] then none
         else some (buffer ++ chars.filter (fun c => c != '\r'), [])) := by
  intro chars
  induction chars with
  | nil =>
    intro buffer nl bt ic _
    cases buffer <;> simp [BlockSplitter.nextLoop]
  | cons c rest ih =>
    intro buffer nl bt ic h
    have hc := h c (List.mem_cons_self c rest)
    have hrest : ∀ x ∈ rest, x = ' ' ∨ x = '\t' ∨ x = '\n' ∨ x = '\r' :=
      fun x hx => h x (List.mem_cons_of_mem c hx)
    rcases hc with hc | hc | hc | hc
    · subst hc
      rw [show BlockSplitter.nextLoop (' ' :: rest) buffer nl bt ic
            = BlockSplitter.nextLoop rest (buffer ++ [' ']) nl bt ic
          from rfl]
      rw [ih (buffer ++ [' ']) nl bt ic hrest]
      rw [show List.filter (fun c => c != '\r') (' ' :: rest)
            = ' ' :: List.filter (fun c => c != '\r') rest from rfl]
      simp [List.append_assoc]
    · subst hc
      rw [show BlockSplitter.nextLoop ('\t' :: rest) buffer nl bt ic
            = BlockSplitter.nextLoop rest (buffer ++ ['\t']) nl bt ic
          from rfl]
      rw [ih (buffer ++ ['\t']) nl bt ic hrest]
      rw [show List.filter (fun c => c != '\r') ('\t' :: rest)
            = '\t' :: List.filter (fun c => c != '\r') rest from rfl]
      simp [List.append_assoc]
    · subst hc
      rw [show BlockSplitter.nextLoop ('\n' :: rest) buffer nl bt ic
            = BlockSplitter.nextLoop rest (buffer ++ ['\n']) (nl + 1) bt ic
          from rfl]
      rw [ih (buffer ++ ['\n']) (nl + 1) bt ic hrest]
      rw [show List.filter (fun c => c != '\r') ('\n' :: rest)
            = '\n' :: List.filter (fun c => c != '\r') rest from rfl]
      simp [List.append_assoc]
    · subst hc
      rw [show BlockSplitter.nextLoop ('\r' :: rest) buffer nl bt ic
            = BlockSplitter.nextLoop rest buffer nl bt ic from rfl]
      rw [ih buffer nl bt ic hrest]
      rw [show List.filter (fun c => c != '\r') ('\r' :: rest)
            = List.filter (fun c => c != '\r') rest from rfl]

/-- C5 (amended): every block the splitter emits before the last one is
trimmed (only the boundary branch, which trims, emits them); the final
block is flushed at end of input without trimming, and consequently an
input consisting only of spaces, tabs, newlines and carriage returns
yields not zero blocks but a single untrimmed block holding the whole
input minus its carriage returns — except when that remainder is empty,
in which case no block is emitted. -/
theorem splitter_trimming_amended (chars : List Char) :
    (∀ b ∈ (BlockSplitter.splitBlocks chars).dropLast,
      trimChars b = b) ∧
    ((∀ c ∈ chars, c = ' ' ∨ c = '\t' ∨ c = '\n' ∨ c = '\r') →
      BlockSplitter.splitBlocks chars =
        (if chars.filter (fun c => c != '\r') = [] then []
         else [chars.filter (fun c => c != '\r')])) := by
  constructor
  · exact fun b hb =>
      splitBlocksAux_dropLast_trimmed (chars.length + 1) chars b hb
  · intro h
    show BlockSplitter.splitBlocksAux (chars.length + 1) chars = _
    simp only [BlockSplitter.splitBlocksAux]
    rw [nextLoop_all_ws chars [] 0 0 false h]
    by_cases h0 : chars.filter (fun c => c != '\r') = []
    · rw [if_pos (by simpa using h0), if_pos h0]
    · rw [if_neg (by simpa using h0), if_neg h0]
      simp [splitBlocksAux_nil]

theorem splitter_trimming_amended_witness :
    trimChars "x".data = "x".data ∧
    BlockSplitter.splitBlocks " \n".data = [" \n".data] :=
  ⟨(splitter_trimming_amended " x\n\ny ".data).1 "x".data (by decide),
   ((splitter_trimming_amended " \n".data).2 (by decide)).trans
     (by decide)⟩

/-! ## List parser lemmas (towards the amended C9) -/

theorem isStartLoop_ok_irrel (line : List Char) (ln ln2 : Nat) :
    ∀ (cs : List Char) (idx : Nat) (ind : ListParser.Indent)
      (r : ListParser.IsStartOfNewLineResult),
      ListParser.isStartLoop line ln cs idx ind = .ok r →
      ListParser.isStartLoop line ln2 cs idx ind = .ok r := by
  intro cs
  induction cs with
  | nil => intro idx ind r h; exact h
  | cons c rest ih =>
    intro idx ind r h
    by_cases h1 : c = '\t'
    · subst h1
      cases ind with
      | Zero => exact ih (idx + 1) (.Tab 1) r h
      | Tab n => exact ih (idx + 1) (.Tab (n + 1)) r h
      | Space n =>
        exact Except.noConfusion
          (show (Except.error ⟨ListParser.mixedIndentMessage, ⟨ln, 1⟩⟩ :
              Except ParseError ListParser.IsStartOfNewLineResult)
            = .ok r from h)
    · by_cases h2 : c = ' '
      · subst h2
        cases ind with
        | Zero => exact ih (idx + 1) (.Space 1) r h
        | Space n => exact ih (idx + 1) (.Space (n + 1)) r h
        | Tab n =>
          exact Except.noConfusion
            (show (Except.error ⟨ListParser.mixedIndentMessage, ⟨ln, 1⟩⟩ :
                Except ParseError ListParser.IsStartOfNewLineResult)
              = .ok r from h)
      · simp only [ListParser.isStartLoop] at h ⊢
        rw [if_neg h1, if_neg h2] at h ⊢
        exact h

theorem lineClass_of_ok (line : List Char) (ln : Nat)
    (r : ListParser.IsStartOfNewLineResult)
    (h : ListParser.is_start_of_new_item line ln = .ok r) :
    lineClass line =
      some (r.is_start_of_new_item,
        line.drop (r.indent.count + r.symbol.length + 1)) := by
  have h1 : ListParser.is_start_of_new_item line 1 = .ok r :=
    isStartLoop_ok_irrel line ln 1 line 0 .Zero r h
  unfold lineClass
  rw [h1]

theorem appendToLast_nil_right (l : List (List Char)) :
    appendToLast l [] = l := by
  induction l with
  | nil => rfl
  | cons b rest ih =>
    cases rest with
    | nil => simp [appendToLast]
    | cons c r2 =>
      show b :: appendToLast (c :: r2) [] = b :: (c :: r2)
      rw [ih]

theorem appendToLast_snoc (A : List (List Char)) (x y : List Char) :
    appendToLast (A ++ [x]) y = A ++ [x ++ y] := by
  induction A with
  | nil => rfl
  | cons b rest ih =>
    cases rest with
    | nil => rfl
    | cons c r2 =>
      show b :: appendToLast ((c :: r2) ++ [x]) y
        = b :: ((c :: r2) ++ [x ++ y])
      rw [ih]

theorem findItemsLoop_groups (sl : Nat) :
    ∀ (lines : List (List Char)) (idx : Nat)
      (acc items : List ListParser.ItemInSource),
      ListParser.findItemsLoop sl lines idx acc = some (.ok items) →
      items.map (fun i => i.content) =
        appendToLast (acc.map fun i => i.content)
          (joinL (lineGroups lines).1) ++
          (lineGroups lines).2.map (fun g => g.1 ++ joinL g.2) ∧
        (acc = [] → (lineGroups lines).1 = []) := by
  intro lines
  induction lines with
  | nil =>
    intro idx acc items h
    have h2 : (some (Except.ok acc) :
        Option (Except ParseError (List ListParser.ItemInSource)))
        = some (.ok items) := h
    simp at h2
    subst h2
    refine ⟨?_, fun _ => rfl⟩
    show acc.map _ = appendToLast (acc.map _) (joinL []) ++ []
    rw [show joinL [] = [] from rfl, appendToLast_nil_right,
      List.append_nil]
  | cons line rest ih =>
    intro idx acc items h
    simp only [ListParser.findItemsLoop] at h
    split at h
    · -- classification error: the loop returns that error, not an ok
      simp at h
    · rename_i r heq
      have hlc := lineClass_of_ok line (sl + idx) r heq
      split at h
      · -- the line starts a new item
        rename_i hs
        rw [hs] at hlc
        have hlg : lineGroups (line :: rest) =
            ([], (line.drop (r.indent.count + r.symbol.length + 1),
              (lineGroups rest).1) :: (lineGroups rest).2) := by
          simp only [lineGroups]
          rw [hlc]
        obtain ⟨ihm, _⟩ := ih (idx + 1) _ items h
        refine ⟨?_, fun _ => by rw [hlg]⟩
        rw [ihm, hlg, List.map_append]
        rw [show (List.map (fun i => i.content)
            [(⟨r.indent, r.symbol, r.is_ordered,
              line.drop (r.indent.count + r.symbol.length + 1),
              ⟨⟨sl + idx, 1⟩, ⟨sl + idx, line.length + 1⟩⟩⟩ :
              ListParser.ItemInSource)])
          = [line.drop (r.indent.count + r.symbol.length + 1)] from rfl]
        rw [appendToLast_snoc]
        rw [show joinL [] = [] from rfl, appendToLast_nil_right]
        simp [List.append_assoc]
      · -- continuation line, appended to the last item
        rename_i hs
        rw [Bool.of_not_eq_true hs] at hlc
        have hlg : lineGroups (line :: rest) =
            (line :: (lineGroups rest).1, (lineGroups rest).2) := by
          simp only [lineGroups]
          rw [hlc]
        split at h
        · simp at h
        · rename_i lastItem hlast
          have haccne : acc ≠ [] := by
            intro h0
            rw [h0] at hlast
            simp at hlast
          have hlastv : lastItem = acc.getLast haccne := by
            have hg : acc.getLast? = some (acc.getLast haccne) :=
              List.getLast?_eq_getLast acc haccne
            rw [hlast] at hg
            simpa using hg
          have hacc : acc = acc.dropLast ++ [lastItem] := by
            rw [hlastv]
            exact (List.dropLast_append_getLast haccne).symm
          obtain ⟨ihm, _⟩ := ih (idx + 1) _ items h
          refine ⟨?_, fun h0 => absurd h0 haccne⟩
          rw [ihm, hlg, List.map_append]
          rw [show (List.map (fun i => i.content)
              [({ lastItem with
                  content := lastItem.content ++ line,
                  span := ⟨lastItem.span.start,
                    ⟨sl + idx, line.length + 1⟩⟩} :
                ListParser.ItemInSource)])
            = [lastItem.content ++ line] from rfl]
          rw [appendToLast_snoc]
          conv_rhs => rw [hacc, List.map_append]
          rw [show (List.map (fun i => i.content)
              [lastItem]) = [lastItem.content] from rfl]
          rw [appendToLast_snoc]
          rw [show joinL (line :: (lineGroups rest).1)
            = line ++ joinL (lineGroups rest).1 from rfl]
          simp [List.append_assoc]

/-- C9 (amended): for every List block whose item scan succeeds, the
content of each item is the text of its start line after the bullet
marker with the raw text of every continuation line appended directly —
`push_str` with no joining character, not the single-space joiner the
spec describes. -/
theorem list_continuation_concat_amended (src : List Char)
    (span : SourceSpan) (items : List ListParser.ItemInSource)
    (h : ListParser.find_items_in_src src span = some (.ok items)) :
    items.map (fun i => i.content) = itemContentsSpec (rustLines src) := by
  obtain ⟨hm, hp⟩ :=
    findItemsLoop_groups span.start.line (rustLines src) 0 [] items h
  rw [hm, hp rfl]
  rw [show (List.map (fun i => i.content)
      ([] : List ListParser.ItemInSource)) = [] from rfl]
  rw [show appendToLast [] (joinL []) = [] from rfl]
  rfl

theorem list_continuation_concat_amended_witness :
    List.map (fun i => i.content)
      ([⟨.Zero, "-", false, "ab".data, ⟨⟨1, 1⟩, ⟨2, 2⟩⟩⟩,
        ⟨.Zero, "-", false, "c".data, ⟨⟨3, 1⟩, ⟨3, 4⟩⟩⟩] :
        List ListParser.ItemInSource)
      = itemContentsSpec (rustLines "- a\nb\n- c".data) :=
  list_continuation_concat_amended "- a\nb\n- c".data zeroSpan
    [⟨.Zero, "-", false, "ab".data, ⟨⟨1, 1⟩, ⟨2, 2⟩⟩⟩,
     ⟨.Zero, "-", false, "c".data, ⟨⟨3, 1⟩, ⟨3, 4⟩⟩⟩] rfl

/-! ## Script-tree arena lemmas (towards C2) -/

theorem updateChildren_id (p i : Nat) (n : LetterScriptNode) :
    (updateChildren p i n).id = n.id := by
  unfold updateChildren
  split <;> rfl

theorem updateChildren_kind (p i : Nat) (n : LetterScriptNode) :
    (updateChildren p i n).kind = n.kind := by
  unfold updateChildren
  split <;> rfl

theorem updateChildren_parent (p i : Nat) (n : LetterScriptNode) :
    (updateChildren p i n).parent = n.parent := by
  unfold updateChildren
  split <;> rfl

theorem kindOf_eq_some (t : LetterScriptTree) (id : Nat)
    (k : LetterScriptNodeKind) (h : kindOf t id = some k) :
    ∃ n, t.getNode? id = some n ∧ n.kind = k := by
  unfold kindOf at h
  cases hg : t.getNode? id with
  | none => rw [hg] at h; simp at h
  | some n =>
    rw [hg] at h
    simp at h
    exact ⟨n, rfl, h⟩

theorem parentOf_eq_some (t : LetterScriptTree) (id : Nat)
    (pp : Option Nat) (h : parentOf t id = some pp) :
    ∃ n, t.getNode? id = some n ∧ n.parent = pp := by
  unfold parentOf at h
  cases hg : t.getNode? id with
  | none => rw [hg] at h; simp at h
  | some n =>
    rw [hg] at h
    simp at h
    exact ⟨n, rfl, h⟩

theorem preserves_refl (t : LetterScriptTree) : Preserves t t :=
  ⟨Nat.le_refl _, fun _ _ => ⟨rfl, rfl⟩⟩

theorem preserves_trans {t t2 t3 : LetterScriptTree}
    (h1 : Preserves t t2) (h2 : Preserves t2 t3) : Preserves t t3 := by
  refine ⟨Nat.le_trans h1.1 h2.1, fun i hi => ?_⟩
  obtain ⟨hk1, hp1⟩ := h1.2 i hi
  obtain ⟨hk2, hp2⟩ := h2.2 i (Nat.lt_of_lt_of_le hi h1.1)
  exact ⟨hk2.trans hk1, hp2.trans hp1⟩

theorem filter_map_updateChildren (p i : Nat) :
    ∀ l : List LetterScriptNode,
      ((l.map (updateChildren p i)).filter
        (fun n => n.kind == .Heading)).map (fun n => n.id) =
      (l.filter (fun n => n.kind == .Heading)).map (fun n => n.id) := by
  intro l
  induction l with
  | nil => rfl
  | cons n rest ih =>
    by_cases h : (n.kind == LetterScriptNodeKind.Heading) = true
    · simp [List.filter_cons, updateChildren_kind, updateChildren_id, h,
        ih]
    · simp [List.filter_cons, updateChildren_kind, h, ih]

theorem registerNode_spec (t : LetterScriptTree) (p : Nat)
    (k : LetterScriptNodeKind) (t2 : LetterScriptTree) (id : Nat)
    (h : t.registerNode p k = some (t2, id)) :
    id = t.nodes.length ∧ t2.nodes.length = t.nodes.length + 1 ∧
    p < t.nodes.length ∧ Preserves t t2 ∧
    kindOf t2 id = some k ∧ parentOf t2 id = some (some p) ∧
    (ParentWf t → ParentWf t2) ∧
    headingIds t2 =
      headingIds t ++ (if k = .Heading then [id] else []) := by
  unfold LetterScriptTree.registerNode at h
  split at h
  case isFalse => simp at h
  case isTrue hp =>
    simp only [Option.some.injEq, Prod.mk.injEq] at h
    obtain ⟨ht2, hid⟩ := h
    subst hid
    subst ht2
    refine ⟨rfl, by simp, hp, ?_, ?_, ?_, ?_, ?_⟩
    · -- Preserves
      refine ⟨by simp, fun i hi => ?_⟩
      constructor
      · simp only [kindOf, parentOf, LetterScriptTree.getNode?]
        rw [List.get?_map, List.get?_append hi]
        cases hg : t.nodes.get? i with
        | none => rfl
        | some n => simp [updateChildren_kind]
      · simp only [kindOf, parentOf, LetterScriptTree.getNode?]
        rw [List.get?_map, List.get?_append hi]
        cases hg : t.nodes.get? i with
        | none => rfl
        | some n => simp [updateChildren_parent]
    · -- kind of the new node
      simp only [kindOf, LetterScriptTree.getNode?]
      rw [List.get?_map, List.get?_concat_length]
      simp [updateChildren_kind]
    · -- parent of the new node
      simp only [parentOf, LetterScriptTree.getNode?]
      rw [List.get?_map, List.get?_concat_length]
      simp [updateChildren_parent]
    · -- well-formedness is maintained
      intro hwf i n hget
      simp only [LetterScriptTree.getNode?] at hget
      rw [List.get?_map] at hget
      cases hg : (t.nodes ++
          [(⟨t.nodes.length, k, [], some p⟩ : LetterScriptNode)]).get? i
          with
      | none => rw [hg] at hget; simp at hget
      | some m =>
        rw [hg] at hget
        simp at hget
        subst hget
        rw [updateChildren_id, updateChildren_parent]
        by_cases hi : i < t.nodes.length
        · rw [List.get?_append hi] at hg
          exact hwf i m hg
        · have hieq : i = t.nodes.length := by
            have hlen : i < (t.nodes ++
                [(⟨t.nodes.length, k, [], some p⟩ :
                  LetterScriptNode)]).length :=
              (List.get?_eq_some.mp hg).1
            simp at hlen
            omega
          subst hieq
          rw [List.get?_concat_length] at hg
          simp at hg
          subst hg
          exact ⟨rfl, fun q hq => by
            simp at hq
            subst hq
            exact hp⟩
    · -- headingIds gains exactly the new id when k is Heading
      simp only [headingIds]
      rw [filter_map_updateChildren, List.filter_append,
        List.map_append]
      congr 1
      by_cases hk : k = LetterScriptNodeKind.Heading
      · subst hk
        rw [if_pos rfl]
        rfl
      · rw [if_neg hk]
        rw [show (List.filter (fun n => n.kind == .Heading)
            [(⟨t.nodes.length, k, [], some p⟩ : LetterScriptNode)])
          = [] from by
            rw [List.filter_cons]
            rw [show ((⟨t.nodes.length, k, [], some p⟩ :
                LetterScriptNode).kind == .Heading) = false from
              beq_eq_false_iff_ne.mpr hk]
            rfl]
        rfl

theorem parentWf_new : ParentWf LetterScriptTree.new := by
  intro i n h
  cases i with
  | zero =>
    have h2 : (some (⟨0, .Root, [], none⟩ : LetterScriptNode))
        = some n := h
    simp at h2
    subst h2
    exact ⟨rfl, fun p hp => by simp at hp⟩
  | succ j =>
    exact absurd h (by
      simp [LetterScriptTree.new, LetterScriptTree.getNode?])

theorem headingIds_lt (t : LetterScriptTree) (hwf : ParentWf t) :
    ∀ i ∈ headingIds t, i < t.nodes.length := by
  intro i hi
  unfold headingIds at hi
  rcases List.mem_map.mp hi with ⟨n, hn, hni⟩
  have hn2 : n ∈ t.nodes := List.mem_of_mem_filter hn
  rcases List.get?_of_mem hn2 with ⟨j, hj⟩
  obtain ⟨hjlt, _⟩ := List.get?_eq_some.mp hj
  have hid := (hwf j n hj).1
  rw [← hni, hid]
  exact hjlt

/-! ## Section-counting lemmas (towards C2) -/

theorem chainSecAux_fuel_irrel (t : LetterScriptTree)
    (hwf : ParentWf t) (id : Nat) :
    ∀ fuel fuel2, id < fuel → id < fuel2 →
      chainSecAux t fuel id = chainSecAux t fuel2 id := by
  induction id using Nat.strong_induction_on with
  | _ id ihs =>
    intro fuel fuel2 h1 h2
    cases fuel with
    | zero => omega
    | succ f =>
      cases fuel2 with
      | zero => omega
      | succ f2 =>
        simp only [chainSecAux]
        cases hg : t.getNode? id with
        | none => rfl
        | some n =>
          show ((if n.kind = LetterScriptNodeKind.Section then 1 else 0) +
              match n.parent with
              | none => 0
              | some p => chainSecAux t f p) =
            ((if n.kind = LetterScriptNodeKind.Section then 1 else 0) +
              match n.parent with
              | none => 0
              | some p => chainSecAux t f2 p)
          cases hnp : n.parent with
          | none => rfl
          | some p =>
            have hplt : p < id := (hwf id n hg).2 p hnp
            show ((if n.kind = LetterScriptNodeKind.Section then 1
                else 0) + chainSecAux t f p) =
              ((if n.kind = LetterScriptNodeKind.Section then 1
                else 0) + chainSecAux t f2 p)
            rw [ihs p hplt f f2 (by omega) (by omega)]

theorem chainSecAux_preserves (t t2 : LetterScriptTree)
    (hpres : Preserves t t2) (hwf : ParentWf t) :
    ∀ fuel id, id < t.nodes.length →
      chainSecAux t2 fuel id = chainSecAux t fuel id := by
  intro fuel
  induction fuel with
  | zero => intro id _; rfl
  | succ f ihf =>
    intro id hid
    obtain ⟨hk, hp⟩ := hpres.2 id hid
    simp only [chainSecAux]
    cases hg : t.getNode? id with
    | none =>
      exact absurd (List.get?_eq_none.mp hg) (by omega)
    | some n =>
      simp only [kindOf, parentOf] at hk hp
      rw [hg] at hk hp
      cases hg2 : t2.getNode? id with
      | none => rw [hg2] at hk; simp at hk
      | some n2 =>
        rw [hg2] at hk hp
        simp at hk hp
        show ((if n2.kind = LetterScriptNodeKind.Section then 1 else 0) +
            match n2.parent with
            | none => 0
            | some p => chainSecAux t2 f p) =
          ((if n.kind = LetterScriptNodeKind.Section then 1 else 0) +
            match n.parent with
            | none => 0
            | some p => chainSecAux t f p)
        rw [hk, hp]
        cases hnp : n.parent with
        | none => rfl
        | some p =>
          have hplt : p < id := (hwf id n hg).2 p hnp
          show ((if n.kind = LetterScriptNodeKind.Section then 1
              else 0) + chainSecAux t2 f p) =
            ((if n.kind = LetterScriptNodeKind.Section then 1
              else 0) + chainSecAux t f p)
          rw [ihf p (by omega)]

theorem stackOk_ne_nil {t : LetterScriptTree} {stack : List Nat}
    (h : StackOk t stack) : stack ≠ [] := by
  cases h with
  | base => simp
  | push stack s p => simp

theorem stackOk_getLast_lt {t : LetterScriptTree} {stack : List Nat}
    (h : StackOk t stack) :
    ∀ top, stack.getLast? = some top → top < t.nodes.length := by
  cases h with
  | base hk hp hlen =>
    intro top htop
    have h2 : (some 0 : Option Nat) = some top := htop
    simp at h2
    subst h2
    exact hlen
  | push stack s p hso hs hk hlast hpar =>
    intro top htop
    rw [List.getLast?_concat] at htop
    simp at htop
    subst htop
    exact hs

theorem stackOk_preserves {t t2 : LetterScriptTree} {stack : List Nat}
    (h : StackOk t stack) (hpres : Preserves t t2) :
    StackOk t2 stack := by
  induction h with
  | base hk hp hlen =>
    exact .base ((hpres.2 0 hlen).1.trans hk)
      ((hpres.2 0 hlen).2.trans hp) (Nat.lt_of_lt_of_le hlen hpres.1)
  | push stack s p hso hs hk hlast hpar ih =>
    exact .push stack s p ih (Nat.lt_of_lt_of_le hs hpres.1)
      ((hpres.2 s hs).1.trans hk) hlast ((hpres.2 s hs).2.trans hpar)

theorem stackOk_chain_count (t : LetterScriptTree)
    (hwf : ParentWf t) {stack : List Nat} (hso : StackOk t stack) :
    ∀ top, stack.getLast? = some top →
      ∀ fuel, top < fuel →
        chainSecAux t fuel top = stack.length - 1 := by
  induction hso with
  | base hk hp hlen =>
    intro top htop fuel hfuel
    have h2 : (some 0 : Option Nat) = some top := htop
    simp at h2
    subst h2
    cases fuel with
    | zero => omega
    | succ f =>
      obtain ⟨n, hg, hkval⟩ := kindOf_eq_some t 0 .Root hk
      obtain ⟨n2, hg2, hpval⟩ := parentOf_eq_some t 0 none hp
      rw [hg] at hg2
      simp at hg2
      subst hg2
      simp only [chainSecAux]
      rw [hg]
      show ((if n.kind = LetterScriptNodeKind.Section then 1 else 0) +
          match n.parent with
          | none => 0
          | some p => chainSecAux t f p) = [0].length - 1
      rw [hkval, hpval]
      simp
  | push stack s p hso2 hs hk hlast hpar ih =>
    intro top htop fuel hfuel
    rw [List.getLast?_concat] at htop
    simp at htop
    subst htop
    cases fuel with
    | zero => omega
    | succ f =>
      obtain ⟨n, hg, hkval⟩ := kindOf_eq_some t s .Section hk
      obtain ⟨n2, hg2, hpval⟩ := parentOf_eq_some t s (some p) hpar
      rw [hg] at hg2
      simp at hg2
      subst hg2
      simp only [chainSecAux]
      rw [hg]
      show ((if n.kind = LetterScriptNodeKind.Section then 1 else 0) +
          match n.parent with
          | none => 0
          | some p2 => chainSecAux t f p2) = (stack ++ [s]).length - 1
      rw [hkval, hpval, if_pos rfl]
      have hplt : p < s := (hwf s n hg).2 p hpval
      have hpf : p < f := by
        have hps : s < f + 1 := hfuel
        omega
      show 1 + chainSecAux t f p = (stack ++ [s]).length - 1
      rw [ih p hlast f hpf]
      have hne : stack ≠ [] := stackOk_ne_nil hso2
      have hlen1 : 1 ≤ stack.length := by
        cases stack with
        | nil => exact absurd rfl hne
        | cons a b => simp
      simp
      omega

theorem sectionAncestors_of_stack (t2 : LetterScriptTree)
    (hwf2 : ParentWf t2) (stackA : List Nat)
    (hso : StackOk t2 stackA) (top hid : Nat)
    (hlast : stackA.getLast? = some top)
    (hpar : parentOf t2 hid = some (some top)) :
    sectionAncestors t2 hid = stackA.length - 1 := by
  obtain ⟨n, hg, hpval⟩ := parentOf_eq_some t2 hid (some top) hpar
  unfold sectionAncestors
  rw [hg]
  show (match n.parent with
      | none => 0
      | some p => chainSecAux t2 (t2.nodes.length + 1) p)
    = stackA.length - 1
  rw [hpval]
  exact stackOk_chain_count t2 hwf2 hso top hlast
    (t2.nodes.length + 1)
    (by have := stackOk_getLast_lt hso top hlast; omega)

theorem sectionAncestors_stable (t t2 : LetterScriptTree)
    (hwf : ParentWf t) (hpres : Preserves t t2) (id : Nat)
    (hid : id < t.nodes.length) :
    sectionAncestors t2 id = sectionAncestors t id := by
  unfold sectionAncestors
  cases hg : t.getNode? id with
  | none => exact absurd (List.get?_eq_none.mp hg) (by omega)
  | some n =>
    obtain ⟨hk, hp⟩ := hpres.2 id hid
    simp only [kindOf, parentOf] at hk hp
    rw [hg] at hk hp
    cases hg2 : t2.getNode? id with
    | none => rw [hg2] at hk; simp at hk
    | some n2 =>
      rw [hg2] at hp
      simp at hp
      show (match n2.parent with
          | none => 0
          | some p => chainSecAux t2 (t2.nodes.length + 1) p)
        = (match n.parent with
          | none => 0
          | some p => chainSecAux t (t.nodes.length + 1) p)
      rw [hp]
      cases hnp : n.parent with
      | none => rfl
      | some p =>
        have hplt : p < id := (hwf id n hg).2 p hnp
        have hle : t.nodes.length ≤ t2.nodes.length := hpres.1
        show chainSecAux t2 (t2.nodes.length + 1) p
          = chainSecAux t (t.nodes.length + 1) p
        rw [chainSecAux_preserves t t2 hpres hwf
          (t2.nodes.length + 1) p (by omega)]
        exact chainSecAux_fuel_irrel t hwf p _ _ (by omega)
          (by omega)

theorem popN_take : ∀ (n : Nat) (l : List Nat),
    popN n l = l.take (l.length - n) := by
  intro n
  induction n with
  | zero => intro l; simp [popN]
  | succ m ih =>
    intro l
    show popN m l.dropLast = _
    rw [ih l.dropLast, List.dropLast_eq_take, List.take_take,
      List.length_take]
    congr 1
    omega

theorem stackOk_dropLast {t : LetterScriptTree} {stack : List Nat}
    (h : StackOk t stack) (h2 : 2 ≤ stack.length) :
    StackOk t stack.dropLast := by
  cases h with
  | base hk hp hlen => simp at h2
  | push stack s p hso hs hk hlast hpar =>
    rw [List.dropLast_concat]
    exact hso

theorem stackOk_popN {t : LetterScriptTree} :
    ∀ (n : Nat) (stack : List Nat), StackOk t stack →
      n ≤ stack.length - 1 → StackOk t (popN n stack) := by
  intro n
  induction n with
  | zero => intro stack hso _; exact hso
  | succ m ih =>
    intro stack hso hn
    show StackOk t (popN m stack.dropLast)
    have h2 : 2 ≤ stack.length := by omega
    refine ih stack.dropLast (stackOk_dropLast hso h2) ?_
    rw [List.dropLast_eq_take, List.length_take]
    omega

/-! ## Transformer walk lemmas (towards C2) -/

theorem transformTextNodes_spec (tt : TextTree) :
    ∀ (fuel : Nat) (t : LetterScriptTree) (stack ids : List Nat)
      (t2 : LetterScriptTree) (stack2 : List Nat),
      transformTextNodes tt fuel t stack ids = some (t2, stack2) →
      Preserves t t2 ∧ (ParentWf t → ParentWf t2) ∧ stack2 = stack ∧
      headingIds t2 = headingIds t := by
  intro fuel
  induction fuel with
  | zero =>
    intro t stack ids t2 stack2 h
    simp [transformTextNodes] at h
  | succ f ih =>
    intro t stack ids t2 stack2 h
    cases ids with
    | nil =>
      have h2 : (some (t, stack) :
          Option (LetterScriptTree × List Nat)) = some (t2, stack2) := h
      simp at h2
      obtain ⟨h3, h4⟩ := h2
      subst h3
      subst h4
      exact ⟨preserves_refl t, fun hw => hw, rfl, rfl⟩
    | cons id rest =>
      simp only [transformTextNodes] at h
      split at h
      · simp at h
      · rename_i parentId hplast
        split at h
        · simp at h
        · rename_i textNode htn
          split at h
          · simp at h
          · rename_i nk hnk
            have hnh : nk ≠ LetterScriptNodeKind.Heading := by
              cases htk : textNode.kind <;> rw [htk] at hnk <;>
                simp at hnk <;> simp [← hnk]
            split at h
            · simp at h
            · rename_i t3 nid hreg
              split at h
              · simp at h
              · rename_i t4 s4 hinner
                obtain ⟨p1, w1, s1, hh1⟩ :=
                  ih t3 (stack ++ [nid]) textNode.children t4 s4 hinner
                obtain ⟨p2, w2, s2, hh2⟩ :=
                  ih t4 s4.dropLast rest t2 stack2 h
                obtain ⟨hnid, hlen3, hplt, pres03, hk3, hp3, hwf3,
                  hh3⟩ := registerNode_spec t parentId nk t3 nid hreg
                refine ⟨preserves_trans pres03 (preserves_trans p1 p2),
                  fun hw => w2 (w1 (hwf3 hw)), ?_, ?_⟩
                · rw [s2, s1, List.dropLast_concat]
                · rw [hh2, hh1, hh3, if_neg hnh, List.append_nil]

theorem transformTextTree_spec (t : LetterScriptTree)
    (stack : List Nat) (tt : TextTree) (t2 : LetterScriptTree)
    (stack2 : List Nat)
    (h : transformTextTree t stack tt = some (t2, stack2)) :
    Preserves t t2 ∧ (ParentWf t → ParentWf t2) ∧ stack2 = stack ∧
    headingIds t2 = headingIds t := by
  unfold transformTextTree at h
  split at h
  · simp at h
  · rename_i root hroot
    exact transformTextNodes_spec tt _ t stack root.children t2 stack2 h

theorem currentLevelLoop_append (t : LetterScriptTree) :
    ∀ (l1 l2 : List Nat) (acc : Nat),
      currentLevelLoop t (l1 ++ l2) acc =
        (match currentLevelLoop t l1 acc with
         | none => none
         | some a => currentLevelLoop t l2 a) := by
  intro l1
  induction l1 with
  | nil => intro l2 acc; rfl
  | cons id r ih =>
    intro l2 acc
    cases hg : t.getNode? id with
    | none => simp [currentLevelLoop, hg]
    | some n =>
      simp only [List.cons_append, currentLevelLoop, hg]
      exact ih l2 (if n.kind = .Section then acc + 1 else acc)

theorem currentLevelLoop_stackOk {t : LetterScriptTree}
    {stack : List Nat} (hso : StackOk t stack) :
    ∀ acc, currentLevelLoop t stack acc =
      some (acc + (stack.length - 1)) := by
  induction hso with
  | base hk hp hlen =>
    intro acc
    obtain ⟨n, hg, hkval⟩ := kindOf_eq_some t 0 .Root hk
    simp [currentLevelLoop, hg, hkval]
  | push stack s p hso2 hs hk hlast hpar ih =>
    intro acc
    rw [currentLevelLoop_append, ih acc]
    obtain ⟨n, hg, hkval⟩ := kindOf_eq_some t s .Section hk
    have hne : stack ≠ [] := stackOk_ne_nil hso2
    have hlen1 : 1 ≤ stack.length := by
      cases stack with
      | nil => exact absurd rfl hne
      | cons a b => simp
    show currentLevelLoop t [s] (acc + (stack.length - 1)) = _
    simp [currentLevelLoop, hg, hkval]
    omega

theorem pushSections_spec :
    ∀ (n : Nat) (t : LetterScriptTree) (stack : List Nat)
      (t2 : LetterScriptTree) (stack2 : List Nat),
      ParentWf t → StackOk t stack →
      pushSections n t stack = some (t2, stack2) →
      ParentWf t2 ∧ StackOk t2 stack2 ∧ Preserves t t2 ∧
      headingIds t2 = headingIds t ∧
      stack2.length = stack.length + n := by
  intro n
  induction n with
  | zero =>
    intro t stack t2 stack2 hwf hso h
    have h2 : (some (t, stack) :
        Option (LetterScriptTree × List Nat)) = some (t2, stack2) := h
    simp at h2
    obtain ⟨h3, h4⟩ := h2
    subst h3
    subst h4
    exact ⟨hwf, hso, preserves_refl t, rfl, rfl⟩
  | succ m ih =>
    intro t stack t2 stack2 hwf hso h
    simp only [pushSections] at h
    split at h
    · simp at h
    · rename_i parentId hlast
      split at h
      · simp at h
      · rename_i t3 sid hreg
        obtain ⟨hsid, hlen3, hplt, pres, hk3, hp3, hwfp, hh3⟩ :=
          registerNode_spec t parentId .Section t3 sid hreg
        have hso3 : StackOk t3 (stack ++ [sid]) :=
          .push stack sid parentId (stackOk_preserves hso pres)
            (by omega) hk3 hlast hp3
        obtain ⟨hwf2, hso2, pres2, hh2, hlen2⟩ :=
          ih t3 (stack ++ [sid]) t2 stack2 (hwfp hwf) hso3 h
        have hh3b : headingIds t3 = headingIds t := by
          rw [hh3, if_neg (show LetterScriptNodeKind.Section
            ≠ .Heading by simp), List.append_nil]
        refine ⟨hwf2, hso2, preserves_trans pres pres2,
          hh2.trans hh3b, ?_⟩
        rw [hlen2]
        simp
        omega

theorem registerHeadingAndChildren_spec (t : LetterScriptTree)
    (stack : List Nat) (tt : TextTree) (t2 : LetterScriptTree)
    (stack2 : List Nat) (hwf : ParentWf t) (hso : StackOk t stack)
    (h : registerHeadingAndChildren t stack tt = some (t2, stack2)) :
    ParentWf t2 ∧ StackOk t2 stack2 ∧ Preserves t t2 ∧
    stack2 = stack ∧
    ∃ hid top, headingIds t2 = headingIds t ++ [hid] ∧
      hid < t2.nodes.length ∧ stack2.getLast? = some top ∧
      parentOf t2 hid = some (some top) := by
  unfold registerHeadingAndChildren at h
  split at h
  · simp at h
  · rename_i parentId hlast
    split at h
    · simp at h
    · rename_i t3 hid hreg
      obtain ⟨hhid, hlen3, hplt, pres3, hk3, hp3, hwfp, hh3⟩ :=
        registerNode_spec t parentId .Heading t3 hid hreg
      split at h
      · simp at h
      · rename_i t4 s4 htt
        obtain ⟨pres4, hwfp4, hs4, hh4⟩ :=
          transformTextTree_spec t3 (stack ++ [hid]) tt t4 s4 htt
        have h2 : (some (t4, s4.dropLast) :
            Option (LetterScriptTree × List Nat))
            = some (t2, stack2) := h
        simp at h2
        obtain ⟨h3, h4⟩ := h2
        subst h3
        subst h4
        have hs4d : s4.dropLast = stack := by
          rw [hs4, List.dropLast_concat]
        refine ⟨hwfp4 (hwfp hwf), ?_,
          preserves_trans pres3 pres4, hs4d, hid, parentId,
          ?_, ?_, ?_, ?_⟩
        · rw [hs4d]
          exact stackOk_preserves hso (preserves_trans pres3 pres4)
        · rw [hh4, hh3, if_pos rfl]
        · have hle := pres4.1
          omega
        · rw [hs4d]
          exact hlast
        · have hh : hid < t3.nodes.length := by omega
          rw [(pres4.2 hid hh).2]
          exact hp3

theorem transformHeadingBlock_spec (t : LetterScriptTree)
    (stack : List Nat) (level : Nat) (tt : TextTree)
    (t2 : LetterScriptTree) (stack2 : List Nat) (hwf : ParentWf t)
    (hso : StackOk t stack) (hlev : 1 ≤ level)
    (h : transformHeadingBlock t stack level tt = some (t2, stack2)) :
    ParentWf t2 ∧ StackOk t2 stack2 ∧ Preserves t t2 ∧
    stack2.length = level ∧
    ∃ hid top, headingIds t2 = headingIds t ++ [hid] ∧
      hid < t2.nodes.length ∧ stack2.getLast? = some top ∧
      parentOf t2 hid = some (some top) := by
  unfold transformHeadingBlock at h
  rw [currentLevelLoop_stackOk hso 1] at h
  have hne : stack ≠ [] := stackOk_ne_nil hso
  have hlen1 : 1 ≤ stack.length := by
    cases stack with
    | nil => exact absurd rfl hne
    | cons a b => simp
  rw [show 1 + (stack.length - 1) = stack.length by omega] at h
  have h2 : (match (if stack.length < level then
        pushSections (level - stack.length) t stack
      else if level < stack.length then
        some (t, popN (stack.length - level) stack)
      else some (t, stack)) with
      | none => none
      | some (tree, nodeStack) =>
        registerHeadingAndChildren tree nodeStack tt)
      = some (t2, stack2) := h
  by_cases hlt : stack.length < level
  · rw [if_pos hlt] at h2
    cases hps : pushSections (level - stack.length) t stack with
    | none => rw [hps] at h2; simp at h2
    | some pr =>
      obtain ⟨tA, sA⟩ := pr
      rw [hps] at h2
      have h3 : registerHeadingAndChildren tA sA tt
          = some (t2, stack2) := h2
      obtain ⟨hwfA, hsoA, presA, hhA, hlenA⟩ :=
        pushSections_spec _ t stack tA sA hwf hso hps
      obtain ⟨hwf2, hso2, pres2, hs2, hid, top, hh2, hhl, hgl, hpo⟩ :=
        registerHeadingAndChildren_spec tA sA tt t2 stack2 hwfA hsoA h3
      refine ⟨hwf2, hso2, preserves_trans presA pres2, ?_,
        hid, top, hh2.trans (by rw [hhA]), hhl, hgl, hpo⟩
      rw [hs2, hlenA]
      omega
  · by_cases hgt : level < stack.length
    · rw [if_neg hlt, if_pos hgt] at h2
      have h3 : registerHeadingAndChildren t
          (popN (stack.length - level) stack) tt
          = some (t2, stack2) := h2
      have hsoA : StackOk t (popN (stack.length - level) stack) :=
        stackOk_popN _ stack hso (by omega)
      have hlenA : (popN (stack.length - level) stack).length
          = level := by
        rw [popN_take, List.length_take]
        omega
      obtain ⟨hwf2, hso2, pres2, hs2, hid, top, hh2, hhl, hgl, hpo⟩ :=
        registerHeadingAndChildren_spec t _ tt t2 stack2 hwf hsoA h3
      refine ⟨hwf2, hso2, pres2, ?_, hid, top, hh2, hhl, hgl, hpo⟩
      rw [hs2, hlenA]
    · rw [if_neg hlt, if_neg hgt] at h2
      have h3 : registerHeadingAndChildren t stack tt
          = some (t2, stack2) := h2
      obtain ⟨hwf2, hso2, pres2, hs2, hid, top, hh2, hhl, hgl, hpo⟩ :=
        registerHeadingAndChildren_spec t stack tt t2 stack2 hwf hso h3
      refine ⟨hwf2, hso2, pres2, ?_, hid, top, hh2, hhl, hgl, hpo⟩
      rw [hs2]
      omega

theorem transformBlocksLoop_headings :
    ∀ (hs : List (Nat × TextTree)) (t0 : LetterScriptTree)
      (s0 : List Nat) (t2 : LetterScriptTree) (s2 : List Nat),
      ParentWf t0 → StackOk t0 s0 → (∀ p ∈ hs, 1 ≤ p.1) →
      transformBlocksLoop t0 s0 (headingBlocksOf hs) = some (t2, s2) →
      ParentWf t2 ∧ StackOk t2 s2 ∧ Preserves t0 t2 ∧
      (headingIds t2).map (sectionAncestors t2) =
        (headingIds t0).map (sectionAncestors t0) ++
          hs.map (fun p => p.1 - 1) := by
  intro hs
  induction hs with
  | nil =>
    intro t0 s0 t2 s2 hwf hso _ h
    have h2 : (some (t0, s0) :
        Option (LetterScriptTree × List Nat)) = some (t2, s2) := h
    simp at h2
    obtain ⟨h3, h4⟩ := h2
    subst h3
    subst h4
    exact ⟨hwf, hso, preserves_refl t0, by simp⟩
  | cons p rest ih =>
    intro t0 s0 t2 s2 hwf hso hlev h
    rw [show headingBlocksOf (p :: rest)
      = .Heading p.1 p.2 :: headingBlocksOf rest from rfl] at h
    simp only [transformBlocksLoop] at h
    rw [show transformBlock t0 s0 (.Heading p.1 p.2)
      = transformHeadingBlock t0 s0 p.1 p.2 from rfl] at h
    cases hb : transformHeadingBlock t0 s0 p.1 p.2 with
    | none => rw [hb] at h; simp at h
    | some pr =>
      obtain ⟨t1, s1⟩ := pr
      rw [hb] at h
      have h2 : transformBlocksLoop t1 s1 (headingBlocksOf rest)
          = some (t2, s2) := h
      obtain ⟨hwf1, hso1, pres1, hlens1, hid, top, hh1, hhl, hgl,
        hpo⟩ := transformHeadingBlock_spec t0 s0 p.1 p.2 t1 s1 hwf hso
          (hlev p (List.mem_cons_self p rest)) hb
      obtain ⟨hwf2, hso2, pres2, hmap2⟩ :=
        ih t1 s1 t2 s2 hwf1 hso1
          (fun q hq => hlev q (List.mem_cons_of_mem p hq)) h2
      refine ⟨hwf2, hso2, preserves_trans pres1 pres2, ?_⟩
      have hmid : (headingIds t1).map (sectionAncestors t1) =
          (headingIds t0).map (sectionAncestors t0) ++ [p.1 - 1] := by
        rw [hh1, List.map_append]
        congr 1
        · exact List.map_congr_left (fun i hi =>
            sectionAncestors_stable t0 t1 hwf pres1 i
              (headingIds_lt t0 hwf i hi))
        · rw [show (List.map (sectionAncestors t1) [hid])
            = [sectionAncestors t1 hid] from rfl]
          rw [sectionAncestors_of_stack t1 hwf1 s1 hso1 top hid hgl
            hpo, hlens1]
      rw [hmap2, hmid]
      simp

/-- C2: for every sequence of parsed Heading blocks with levels
h1,…,hn, each at least 1, that the transformer turns into a Script
Tree, the i-th Heading node of the resulting tree has exactly hᵢ − 1
Section ancestors below the root: the stack adjustment of
`transform_heading_block` pushes `level − current_level` Sections when
the level grows and pops that many when it shrinks, keeping the Heading
wrapped in exactly level − 1 Sections. -/
theorem heading_section_promotion (hs : List (Nat × TextTree))
    (hlev : ∀ p ∈ hs, 1 ≤ p.1) (tree : LetterScriptTree)
    (h : transform (headingBlocksOf hs) = some tree) :
    (headingIds tree).map (sectionAncestors tree) =
      hs.map (fun p => p.1 - 1) := by
  unfold transform at h
  cases hb : transformBlocksLoop LetterScriptTree.new
      [LetterScriptTree.new.rootId] (headingBlocksOf hs) with
  | none => rw [hb] at h; simp at h
  | some pr =>
    obtain ⟨t2, s2⟩ := pr
    rw [hb] at h
    simp at h
    subst h
    have hsonew : StackOk LetterScriptTree.new [0] :=
      .base rfl rfl (by decide)
    obtain ⟨_, _, _, hmap⟩ := transformBlocksLoop_headings hs
      LetterScriptTree.new [0] t2 s2 parentWf_new hsonew hlev hb
    rw [hmap]
    rw [show headingIds LetterScriptTree.new = [] from rfl]
    rfl

/-- Witness for `heading_section_promotion`: the heading levels
1, 3, 2 produce Heading nodes with 0, 2 and 1 Section ancestors. -/
theorem heading_section_promotion_witness :
    (headingIds ((transform (headingBlocksOf
        [(1, TextTree.new zeroSpan), (3, TextTree.new zeroSpan),
         (2, TextTree.new zeroSpan)])).getD
        LetterScriptTree.new)).map
      (sectionAncestors ((transform (headingBlocksOf
        [(1, TextTree.new zeroSpan), (3, TextTree.new zeroSpan),
         (2, TextTree.new zeroSpan)])).getD
        LetterScriptTree.new))
    = [0, 2, 1] :=
  heading_section_promotion
    [(1, TextTree.new zeroSpan), (3, TextTree.new zeroSpan),
     (2, TextTree.new zeroSpan)]
    (by decide) _ rfl

end Md2Letter

